import Mathlib

/-!
Shallow embedding of `packages/ui-concerto/src/reactformvisitor.js`
(class `ReactFormVisitor`) and verification of its specification.

The visitor walks a Concerto schema (enum / class / field / relationship
declarations) and produces a tree of React elements, threading a mutable
`parameters` object (the traversal context) through the walk.  The
embedding models:
  * React elements as the inductive `UIElement` (element props that the
    source puts on components become constructor arguments; closures
    passed as `addElement` callbacks are represented by the value the
    closure would supply);
  * the mutable `parameters` object by explicit state passing: every
    visitor method returns its result together with the updated `Params`;
  * a thrown JS exception as `Except.error`; the `Params` component of
    the returned pair is the state of the context at the moment of the
    throw (JS mutations are not rolled back by exceptions);
  * the recursion through `modelManager.getType(...).accept(this, ...)`
    with a fuel parameter: `fuel` is decremented exactly once per
    dispatch through `visit`, and exhaustion yields the artificial error
    `VisitError.noFuel`, so that termination of the source program on a
    schema is embedded as "for some finite fuel the result is not
    `noFuel`".

Helper functions imported by the source from `./utilities` and from
`@accordproject/concerto-core` are not part of `src/`; each such helper
is modelled from the spec and carries a doc comment saying so.
-/

namespace ConcertoForm

/-- A segment of the traversal path stack: a field name pushed by
`visitField`/`visitRelationship` or an array index pushed while mapping
over an array value. -/
inductive PathSeg where
  | name (s : String)
  | index (i : Nat)
deriving DecidableEq, Repr

/-- The JSON document being edited (`parameters.json`). -/
inductive Json where
  | null
  | bool (b : Bool)
  | num (n : Int)
  | str (s : String)
  | arr (elems : List Json)
  | obj (fields : List (String × Json))
deriving Repr

/-- JavaScript truthiness of the result of a lodash `get` (`undefined`
is `none`): used to embed `value && value.map(...)`. -/
def jsTruthy : Option Json → Bool
  | none => false
  | some .null => false
  | some (.bool b) => b
  | some (.num n) => n != 0
  | some (.str s) => !(s = "")
  | some (.arr _) => true
  | some (.obj _) => true

/-- Modelled from the spec: the path-keyed value lookup consumed from
the document ("dotted/indexed path syntax over nested objects/arrays").
The source calls `lodash.get(parameters.json, key)` on the string
`pathToString(stack)`; lodash parses that string back into exactly the
name/index segments of the stack, so the embedding walks the segment
list directly. -/
def get : Json → List PathSeg → Option Json
  | j, [] => some j
  | .obj fs, .name n :: rest =>
    match fs.find? (fun f => f.1 = n) with
    | some f => get f.2 rest
    | none => none
  | .arr xs, .index i :: rest =>
    match xs.get? i with
    | some v => get v rest
    | none => none
  | _, _ => none

/-- Modelled from the spec: path-to-string conversion of the stack, the
"mechanism for computing a unique lookup key per node" — name segments
joined with dots, index segments rendered as a bracketed suffix. -/
def pathToString (stack : List PathSeg) : String :=
  stack.foldl
    (fun acc seg =>
      match seg with
      | .name s => if acc = "" then s else acc ++ "." ++ s
      | .index i => acc ++ "[" ++ toString i ++ "]")
    ""

/-- A decorator attached to a schema property (name plus argument list),
as exposed by concerto-core `getDecorator`. -/
structure Decorator where
  name : String
  args : List String
deriving DecidableEq, Repr

/-- The data of a concerto-core `Field` that the visitor consumes:
simple name, fully qualified property name, declared type tag
(`getType()`), fully qualified type name, flags, decorators. -/
structure FieldData where
  name : String
  fqn : String
  ftype : String
  fqTypeName : String
  isArray : Bool
  isOptional : Bool
  isPrimitive : Bool
  decorators : List Decorator
deriving DecidableEq, Repr

/-- The data of a concerto-core `RelationshipDeclaration` the visitor
consumes.  `nspace` stands for `getNamespace()` (the word itself is a
Lean keyword); `rtype` is `getType()`. -/
structure RelationshipData where
  name : String
  fqn : String
  nspace : String
  rtype : String
  isArray : Bool
  isOptional : Bool
  decorators : List Decorator
deriving DecidableEq, Repr

/-- A property of a class declaration: a field or a relationship. -/
inductive Property where
  | field (f : FieldData)
  | rel (r : RelationshipData)
deriving DecidableEq, Repr

/-- The property's simple name (`getName()`). -/
def Property.name : Property → String
  | .field f => f.name
  | .rel r => r.name

/-- The property's fully qualified name (`getFullyQualifiedName()`). -/
def Property.fqn : Property → String
  | .field f => f.fqn
  | .rel r => r.fqn

/-- A concerto-core `ClassDeclaration`: qualified name, simple name,
abstractness, identifier field name (`getIdentifierFieldName()`, which
may be absent), declared properties in declaration order, and the fully
qualified super type name (`getSuperType()`), consumed by the
concrete-subclass substitution. -/
structure ClassDecl where
  fqn : String
  name : String
  isAbstract : Bool
  idFieldName : Option String
  props : List Property
  superType : Option String := none
deriving DecidableEq, Repr

/-- concerto-core `getProperty(name)`: the class property of the given
simple name. -/
def ClassDecl.getProperty (cd : ClassDecl) (n : String) : Option Property :=
  cd.props.find? (fun p => p.name = n)

/-- A concerto-core `EnumDeclaration`: its literal names in declaration
order (the names of the properties returned by `getProperties()`). -/
structure EnumDecl where
  fqn : String
  name : String
  literals : List String
deriving DecidableEq, Repr

/-- A declaration stored in the model manager. -/
inductive Decl where
  | enum (e : EnumDecl)
  | cls (c : ClassDecl)
deriving DecidableEq, Repr

/-- The argument of `visit(thing, parameters)`.  The four known variants
mirror the `instanceof` chain of the source; `unknown` stands for any
JavaScript value outside the four classes (the `instanceof` chain is
open in JS). -/
inductive SchemaNode where
  | enumDeclaration (e : EnumDecl)
  | classDeclaration (c : ClassDecl)
  | field (f : FieldData)
  | relationshipDeclaration (r : RelationshipData)
  | unknown (descr : String)
deriving Repr

/-- Whether a node is outside the four known variants. -/
def SchemaNode.isUnknown : SchemaNode → Bool
  | .unknown _ => true
  | _ => false

/-- `accept` on a class property dispatches back into `visit` on the
property itself. -/
def propToNode : Property → SchemaNode
  | .field f => .field f
  | .rel r => .relationshipDeclaration r

/-- A declaration resolved by the model manager, as a visitable node. -/
def declToNode : Decl → SchemaNode
  | .enum e => .enumDeclaration e
  | .cls c => .classDeclaration c

/-- The model manager: declarations indexed by fully qualified name. -/
structure ModelManager where
  decls : List (String × Decl)
deriving DecidableEq, Repr

/-- concerto-core `modelManager.getType(fqn)`: resolution of a type by
its fully qualified name. -/
def ModelManager.getType (m : ModelManager) (fqn : String) : Option Decl :=
  (m.decls.find? (fun d => d.1 = fqn)).map (·.2)

/-- Modelled from the spec: the `Writer` imported from concerto-core and
installed into the context by `visit`; the visitor itself never writes
to it, so only its identity matters. -/
structure Writer where
  buffer : List String := []
deriving DecidableEq, Repr

/-- An entry of the `customSelectors` registry: `{ value, text }`. -/
structure SelectorOption where
  value : String
  text : String
deriving DecidableEq, Repr

/-- The traversal context (`parameters`), passed by reference in the
source and threaded explicitly here. -/
structure Params where
  json : Json
  stack : List PathSeg
  modelManager : ModelManager
  fileWriter : Option Writer := none
  skipLabel : Bool := false
  disabled : Bool := false
  textOnly : Bool := false
  hideIdentifiers : Bool := false
  hiddenFields : Option (List String) := none
  checkboxStyle : Option String := none
  customSelectors : List (String × List SelectorOption) := []
  includeOptionalFields : Bool := false
  includeSampleData : Bool := false
deriving Repr

/-- `stack.push(seg)` (JS `Array.prototype.push` appends). -/
def Params.push (p : Params) (seg : PathSeg) : Params :=
  { p with stack := p.stack ++ [seg] }

/-- `stack.pop()` (drops the last segment). -/
def Params.pop (p : Params) : Params :=
  { p with stack := p.stack.dropLast }

/-- The prop bundle assembled by `visitField`/`visitRelationship` and
handed to `visitSingletonField`; only the props the embedding observes
are kept. -/
structure CommonProps where
  skipLabel : Bool
  id : String
  value : Option Json
  ftype : String
  required : Bool
deriving Repr

/-- An option of a rendered `ConcertoDropdown`. -/
structure DropOption where
  key : String
  value : String
  text : String
deriving DecidableEq, Repr

/-- The rendered React elements, with the props the source puts on each
component.  `addElementValue` on `concertoArray` is the value the
`addElement` callback closure passes for a freshly appended element. -/
inductive UIElement where
  | concertoInput (id key : String) (value : Option Json) (ftype : String)
      (skipLabel required : Bool)
  | concertoCheckbox (id key : String) (value : Option Json) (toggle : Bool)
  | concertoDateTime (id key : String) (value : Option Json)
  | concertoDropdown (id key : String) (value displayText : Option Json)
      (options : List DropOption)
  | concertoRelationship (id : String) (value : Option Json)
  | concertoArray (key : String) (addElementValue : Json)
      (children : List (Option UIElement))
  | concertoArrayElement (key : String) (index : Nat) (child : Option UIElement)
  | formField (required : Bool) (name : Option String) (labelSkip : Bool)
      (child : Option UIElement)
  | monetaryAmount (key : String) (child0 child1 : Option UIElement)
  | durationWidget (key : String) (child0 child1 : Option UIElement)
  | divWrapper (key : String) (child : Option UIElement)
  | elementList (elems : List (Option UIElement))
deriving Repr

/-- The ways a visit can leave abnormally.  `unrecognisedType` and
`customSelectorNotFound` are the two errors the source throws
explicitly; `typeNotFound` and `jsError` embed crashes of library calls
on ill-formed schemas; `noFuel` is the embedding artefact marking fuel
exhaustion (the source would still be recursing). -/
inductive VisitError where
  | unrecognisedType (descr : String)
  | customSelectorNotFound (key : String)
  | typeNotFound (fqn : String)
  | jsError (msg : String)
  | noFuel
deriving DecidableEq, Repr

/-- The result of a visitor method: the returned element (or null), or a
thrown error. -/
abbrev VisitResult := Except VisitError (Option UIElement)

/-- concerto-core decorator lookup by name (`getDecorator`). -/
def getDecorator (ds : List Decorator) (n : String) : Option Decorator :=
  ds.find? (fun d => d.name = n)

/-- Modelled from the spec: the `isHidden` visibility predicate from
`./utilities` — whether the property itself is "marked hidden by
policy", modelled as carrying a `Hidden` decorator. -/
def isHidden (ds : List Decorator) : Bool :=
  (getDecorator ds "Hidden").isSome

/-- Modelled from the spec: the `hideProperty` predicate from
`./utilities` — whether the property's fully qualified name is in the
context's accumulated hidden-fields set. -/
def hideProperty (fqn : String) (p : Params) : Bool :=
  (p.hiddenFields.getD []).contains fqn

/-- Modelled from the spec: `getCustomSelectDecoratorKey` from
`./utilities` — the key argument of the field's custom-selector
decorator when the field carries one (the decorator's concrete name
lives in `utilities.js`, modelled here as `CustomSelector`). -/
def getCustomSelectDecoratorKey (f : FieldData) : Option String :=
  (getDecorator f.decorators "CustomSelector").bind (fun d => d.args.get? 0)

/-- Modelled from the spec: `toFieldType` from `./utilities` — the
mapping from a declared primitive type tag to the HTML input mode, with
`DateTime` mapped to the date/time picker type. -/
def toFieldType (t : String) : String :=
  match t with
  | "DateTime" => "datetime-local"
  | "Integer" => "number"
  | "Long" => "number"
  | "Double" => "number"
  | _ => "text"

/-- Modelled from the spec: `getDefaultValue` from `./utilities` — the
"computed default value" supplied for a freshly appended array element.
Claims only compare against this function, never unfold its body. -/
def getDefaultValue (f : FieldData) (_parameters : Params) : Json :=
  match f.ftype with
  | "String" => .str ""
  | "Integer" => .num 0
  | "Long" => .num 0
  | "Double" => .num 0
  | "Boolean" => .bool false
  | _ => .null

/-- Modelled from the spec: whether a class declaration is assignable to
the type named `target`, following the superclass chain through the
model (concerto-core assignability).  The walk carries a step budget so
that a corrupt cyclic superclass chain cannot diverge; callers give it
one more step than there are declarations, which covers every chain a
validated model can contain. -/
def assignableTo (M : ModelManager) : Nat → ClassDecl → String → Bool
  | 0, _, _ => false
  | steps + 1, cd, target =>
    if cd.fqn = target then true
    else
      match cd.superType with
      | none => false
      | some s =>
        match M.getType s with
        | some (.cls sup) => assignableTo M steps sup target
        | _ => false

/-- Modelled from the spec: the class declarations of the model that are
assignable to the type named `target` (concerto-core
`getAssignableClassDeclarations`). -/
def getAssignableClassDeclarations (M : ModelManager) (target : String) :
    List ClassDecl :=
  M.decls.filterMap fun d =>
    match d.2 with
    | .cls cd =>
      if assignableTo M (M.decls.length + 1) cd target then some cd else none
    | .enum _ => none

/-- Modelled from the spec: `findConcreteSubclass` from `./utilities`
substitutes "the most specific concrete subclass if the declared type is
abstract/polymorphic".  A concrete declaration (enums included) is
returned unchanged; for an abstract class the first concrete declaration
of the model assignable to it is substituted, and the absence of any
concrete subclass is a crash of the helper.  In the source the
declaration reaches its model through its own back-reference; the
embedding passes the model manager explicitly. -/
def findConcreteSubclass (M : ModelManager) (d : Decl) : Except VisitError Decl :=
  match d with
  | .enum e => Except.ok (.enum e)
  | .cls cd =>
    if cd.isAbstract then
      match (getAssignableClassDeclarations M cd.fqn).filter
          (fun c => !c.isAbstract) with
      | [] => Except.error (.jsError "no concrete subclass found")
      | c :: _ => Except.ok (.cls c)
    else Except.ok (.cls cd)

/-- Modelled from the spec: the reference URI of the sample resource the
factory builds (`newResource(ns, type, resource1).toURI()`), used
"purely to obtain a stable identifier template". -/
def newResourceURI (ns ty : String) : String :=
  "resource:" ++ ns ++ "." ++ ty ++ "#resource1"

/-- Lookup in the context-supplied `customSelectors` registry
(`customSelectors[customSelectorKey]`). -/
def lookupSelector (sels : List (String × List SelectorOption)) (k : String) :
    Option (List SelectorOption) :=
  (sels.find? (fun s => s.1 = k)).map (·.2)

/-- Lines 63-66: `if (!parameters.fileWriter) parameters.fileWriter =
new Writer()`. -/
def installWriter (p : Params) : Params :=
  match p.fileWriter with
  | none => { p with fileWriter := some {} }
  | some _ => p

/-- Lines 96-107 of `visitClassDeclaration`: under `hideIdentifiers`,
initialise `hiddenFields` if absent and push the fully qualified name of
the identifier field.  The error case embeds the JS crash when
`getProperty` yields `undefined` for a declared identifier field name. -/
def recordHiddenId (classDeclaration : ClassDecl) (parameters : Params) :
    Option VisitError × Params :=
  if parameters.hideIdentifiers then
    let p1 := { parameters with hiddenFields := some (parameters.hiddenFields.getD []) }
    match classDeclaration.idFieldName with
    | some idFieldName =>
      if idFieldName = "" then (none, p1)
      else
        match classDeclaration.getProperty idFieldName with
        | some idField =>
          (none, { p1 with hiddenFields := some (p1.hiddenFields.getD [] ++ [idField.fqn]) })
        | none => (some (.jsError "getFullyQualifiedName of undefined"), p1)
    | none => (none, p1)
  else (none, parameters)

/-- Lines 190-211: `visitEnumDeclaration` — key from the path stack,
current value from the document, a `ConcertoDropdown` with one option
per declared literal (option key `option-<name>`, value and text the
literal name). -/
def visitEnumDeclaration (enumDeclaration : EnumDecl) (parameters : Params) :
    VisitResult × Params :=
  let key := pathToString parameters.stack
  let value := get parameters.json parameters.stack
  (Except.ok (some (.concertoDropdown key ("enum-" ++ key) value value
    (enumDeclaration.literals.map (fun n => ⟨"option-" ++ n, n, n⟩)))), parameters)

/-- Lines 413-425: the `value.map` loop of the array branch of
`visitRelationship` — push the index, recompute key and value, build a
`ConcertoArrayElement` keyed `relationship-<key>-<index>` around a
`ConcertoRelationship`, pop the index. -/
def relationshipArrayElements (relationship : RelationshipData) (elems : List Json)
    (index : Nat) (parameters : Params) : List (Option UIElement) × Params :=
  match elems with
  | [] => ([], parameters)
  | _e :: rest =>
    let p1 := parameters.push (.index index)
    let key := pathToString p1.stack
    let value := get p1.json p1.stack
    let el := UIElement.concertoArrayElement
      ("relationship-" ++ key ++ "-" ++ toString index) index
      (some (.concertoRelationship key value))
    let p2 := p1.pop
    let (els, p3) := relationshipArrayElements relationship rest (index + 1) p2
    (some el :: els, p3)

/-- Lines 362-434: `visitRelationship` — hide check before any stack
mutation; push the name; for arrays, build the sample resource URI for
the add callback and one element wrapper per existing entry; otherwise a
single `ConcertoRelationship`; pop on every normal return. -/
def visitRelationship (relationship : RelationshipData) (parameters : Params) :
    VisitResult × Params :=
  let skipLabel := parameters.skipLabel
  if hideProperty relationship.fqn parameters || isHidden relationship.decorators then
    (Except.ok none, parameters)
  else
    let p1 := parameters.push (.name relationship.name)
    let key := pathToString p1.stack
    let value := get p1.json p1.stack
    let _commonProps : CommonProps :=
      ⟨skipLabel || relationship.isArray, key, value, "text", !relationship.isOptional⟩
    if relationship.isArray then
      let newResource := newResourceURI relationship.nspace relationship.rtype
      if jsTruthy value then
        match value with
        | some (.arr xs) =>
          let (children, p2) := relationshipArrayElements relationship xs 0 p1
          (Except.ok (some (.concertoArray key (.str newResource) children)), p2.pop)
        | _ => (Except.error (.jsError "value.map is not a function"), p1)
      else
        (Except.ok (some (.concertoArray key (.str newResource) [])), p1.pop)
    else
      (Except.ok (some (.concertoRelationship key value)), p1.pop)

mutual

/-- Lines 62-86: `visit` — install a `Writer` into the context if
absent, then dispatch on the `instanceof` chain; any value outside the
four known variants raises the "Unrecognised type" error.  `fuel` is the
embedding's recursion budget, decremented once per dispatch. -/
def visit (fuel : Nat) (thing : SchemaNode) (parameters : Params) :
    VisitResult × Params :=
  let parameters := installWriter parameters
  match fuel with
  | 0 => (Except.error .noFuel, parameters)
  | fuel + 1 =>
    match thing with
    | .enumDeclaration e => visitEnumDeclaration e parameters
    | .classDeclaration c => visitClassDeclaration fuel c parameters
    | .field f => visitField fuel f parameters
    | .relationshipDeclaration r => visitRelationship r parameters
    | .unknown descr => (Except.error (.unrecognisedType descr), parameters)
termination_by (fuel, 0, 0)

/-- Lines 95-139: `visitClassDeclaration` — record the identifier field
under `hideIdentifiers`, return null for abstract classes, special-case
the monetary amount / duration / party qualified names, otherwise visit
the declared properties in order. -/
def visitClassDeclaration (fuel : Nat) (classDeclaration : ClassDecl)
    (parameters : Params) : VisitResult × Params :=
  match recordHiddenId classDeclaration parameters with
  | (some e, p1) => (Except.error e, p1)
  | (none, p1) =>
    if classDeclaration.isAbstract then (Except.ok none, p1)
    else if classDeclaration.fqn = "org.accordproject.money.MonetaryAmount"
        || classDeclaration.fqn = "org.accordproject.money.DigitalMonetaryAmount" then
      visitMonetaryAmount fuel classDeclaration p1
    else if classDeclaration.fqn = "org.accordproject.time.Duration"
        || classDeclaration.fqn = "org.accordproject.time.Period" then
      visitDuration fuel classDeclaration p1
    else if classDeclaration.fqn = "org.accordproject.cicero.contract.AccordParty" then
      visitAccordParty fuel classDeclaration p1
    else
      match acceptProperties fuel classDeclaration.props p1 with
      | (Except.ok rs, p2) => (Except.ok (some (.elementList rs)), p2)
      | (Except.error e, p2) => (Except.error e, p2)
termination_by (fuel, 3, 0)

/-- Lines 141-154: `visitMonetaryAmount` — force `skipLabel` true, visit
the first two declared properties, wrap them, then set `skipLabel` to
false.  Out-of-range property access embeds the JS crash on a malformed
composite. -/
def visitMonetaryAmount (fuel : Nat) (declaration : ClassDecl)
    (parameters : Params) : VisitResult × Params :=
  let props := declaration.props
  let p1 := { parameters with skipLabel := true }
  match props.get? 0 with
  | none => (Except.error (.jsError "accept of undefined"), p1)
  | some pr0 =>
    match visit fuel (propToNode pr0) p1 with
    | (Except.error e, p2) => (Except.error e, p2)
    | (Except.ok r0, p2) =>
      match props.get? 1 with
      | none => (Except.error (.jsError "accept of undefined"), p2)
      | some pr1 =>
        match visit fuel (propToNode pr1) p2 with
        | (Except.error e, p3) => (Except.error e, p3)
        | (Except.ok r1, p3) =>
          (Except.ok (some (.monetaryAmount declaration.name.toLower r0 r1)),
            { p3 with skipLabel := false })
termination_by (fuel, 2, 0)

/-- Lines 156-169: `visitDuration` — same shape as
`visitMonetaryAmount` with a `Duration` wrapper. -/
def visitDuration (fuel : Nat) (declaration : ClassDecl)
    (parameters : Params) : VisitResult × Params :=
  let props := declaration.props
  let p1 := { parameters with skipLabel := true }
  match props.get? 0 with
  | none => (Except.error (.jsError "accept of undefined"), p1)
  | some pr0 =>
    match visit fuel (propToNode pr0) p1 with
    | (Except.error e, p2) => (Except.error e, p2)
    | (Except.ok r0, p2) =>
      match props.get? 1 with
      | none => (Except.error (.jsError "accept of undefined"), p2)
      | some pr1 =>
        match visit fuel (propToNode pr1) p2 with
        | (Except.error e, p3) => (Except.error e, p3)
        | (Except.ok r1, p3) =>
          (Except.ok (some (.durationWidget declaration.name.toLower r0 r1)),
            { p3 with skipLabel := false })
termination_by (fuel, 2, 0)

/-- Lines 171-181: `visitAccordParty` — force `skipLabel` true, visit
the single declared property inside a `div`, then set `skipLabel` to
false. -/
def visitAccordParty (fuel : Nat) (declaration : ClassDecl)
    (parameters : Params) : VisitResult × Params :=
  let props := declaration.props
  let p1 := { parameters with skipLabel := true }
  match props.get? 0 with
  | none => (Except.error (.jsError "accept of undefined"), p1)
  | some pr0 =>
    match visit fuel (propToNode pr0) p1 with
    | (Except.error e, p2) => (Except.error e, p2)
    | (Except.ok r0, p2) =>
      (Except.ok (some (.divWrapper declaration.name.toLower r0)),
        { p2 with skipLabel := false })
termination_by (fuel, 2, 0)

/-- Lines 136-138: `getProperties().map(p => p.accept(this,
parameters))` — visit each property left to right; a thrown error aborts
the map. -/
def acceptProperties (fuel : Nat) (props : List Property) (parameters : Params) :
    Except VisitError (List (Option UIElement)) × Params :=
  match props with
  | [] => (Except.ok [], parameters)
  | pr :: rest =>
    match visit fuel (propToNode pr) parameters with
    | (Except.error e, p1) => (Except.error e, p1)
    | (Except.ok r, p1) =>
      match acceptProperties fuel rest p1 with
      | (Except.ok rs, p2) => (Except.ok (r :: rs), p2)
      | (Except.error e, p2) => (Except.error e, p2)
termination_by (fuel, 1, props.length)

/-- Lines 220-282: `visitField` — hide check before any stack mutation;
push the field name; assemble the common props from the entry value of
`skipLabel`; arrays render a `ConcertoArray` (add callback passing
`getDefaultValue`, one `ConcertoArrayElement` keyed
`<name>_wrapper[<index>]` per entry of the current document value),
singletons render via `visitSingletonField`; the name is popped on every
normal return, while a thrown error propagates without the pop. -/
def visitField (fuel : Nat) (field : FieldData) (parameters : Params) :
    VisitResult × Params :=
  let skipLabel := parameters.skipLabel
  if hideProperty field.fqn parameters || isHidden field.decorators then
    (Except.ok none, parameters)
  else
    let p1 := parameters.push (.name field.name)
    let key := pathToString p1.stack
    let value := get p1.json p1.stack
    let commonProps : CommonProps :=
      ⟨skipLabel || field.isArray, key, value, toFieldType field.ftype, !field.isOptional⟩
    if field.isArray then
      let addElementValue := getDefaultValue field p1
      if jsTruthy value then
        match value with
        | some (.arr xs) =>
          match visitFieldArrayElements fuel field commonProps xs 0 p1 with
          | (Except.ok children, p2) =>
            (Except.ok (some (.concertoArray (field.name ++ "_wrapper")
              addElementValue children)), p2.pop)
          | (Except.error e, p2) => (Except.error e, p2)
        | _ => (Except.error (.jsError "value.map is not a function"), p1)
      else
        (Except.ok (some (.concertoArray (field.name ++ "_wrapper")
          addElementValue [])), p1.pop)
    else
      match visitSingletonField fuel field commonProps p1 with
      | (Except.ok r, p2) => (Except.ok r, p2.pop)
      | (Except.error e, p2) => (Except.error e, p2)
termination_by (fuel, 3, 0)

/-- Lines 261-274: the `value.map` loop of the array branch of
`visitField` — push the index, render the singleton widget inside a
`ConcertoArrayElement` keyed `<name>_wrapper[<index>]`, pop the index;
a thrown error propagates without the pop. -/
def visitFieldArrayElements (fuel : Nat) (field : FieldData) (props : CommonProps)
    (elems : List Json) (index : Nat) (parameters : Params) :
    Except VisitError (List (Option UIElement)) × Params :=
  match elems with
  | [] => (Except.ok [], parameters)
  | _e :: rest =>
    let p1 := parameters.push (.index index)
    match visitSingletonField fuel field props p1 with
    | (Except.ok r, p2) =>
      let el := UIElement.concertoArrayElement
        (field.name ++ "_wrapper[" ++ toString index ++ "]") index r
      match visitFieldArrayElements fuel field props rest (index + 1) p2.pop with
      | (Except.ok els, p3) => (Except.ok (some el :: els), p3)
      | (Except.error e, p3) => (Except.error e, p3)
    | (Except.error e, p2) => (Except.error e, p2)
termination_by (fuel, 2, elems.length)

/-- Lines 291-353: `visitSingletonField` — recompute key and value from
the current stack; primitives render a checkbox (Boolean), a date/time
picker (datetime type), a custom-selector dropdown (failing when the
decorator key is missing from the registry) or a plain input; composite
fields resolve the declared type through the model manager, substitute a
concrete subclass, optionally override the label name from the second
`FormEditor` decorator argument, and recurse into the resolved type. -/
def visitSingletonField (fuel : Nat) (field : FieldData) (props : CommonProps)
    (parameters : Params) : VisitResult × Params :=
  let key := pathToString parameters.stack
  let value := get parameters.json parameters.stack
  if field.isPrimitive then
    if field.ftype = "Boolean" then
      (Except.ok (some (.concertoCheckbox key key value
        (parameters.checkboxStyle = some "toggle"))), parameters)
    else if toFieldType field.ftype = "datetime-local" then
      (Except.ok (some (.concertoDateTime key key value)), parameters)
    else
      match getCustomSelectDecoratorKey field with
      | some customSelectorKey =>
        match lookupSelector parameters.customSelectors customSelectorKey with
        | none => (Except.error (.customSelectorNotFound customSelectorKey), parameters)
        | some options =>
          (Except.ok (some (.concertoDropdown key ("select-" ++ key) value value
            (options.map (fun o => ⟨"option-" ++ o.value, o.value, o.text⟩)))), parameters)
      | none =>
        (Except.ok (some (.concertoInput key key value props.ftype
          props.skipLabel props.required)), parameters)
  else
    match parameters.modelManager.getType field.fqTypeName with
    | none => (Except.error (.typeNotFound field.fqTypeName), parameters)
    | some ty0 =>
      match findConcreteSubclass parameters.modelManager ty0 with
      | Except.error e => (Except.error e, parameters)
      | Except.ok ty =>
        let name : Option String :=
          match getDecorator field.decorators "FormEditor" with
          | some d => d.args.get? 1
          | none => some field.name
        match visit fuel (declToNode ty) parameters with
        | (Except.ok r, p2) =>
          (Except.ok (some (.formField (!field.isOptional) name props.skipLabel r)), p2)
        | (Except.error e, p2) => (Except.error e, p2)
termination_by (fuel, 1, 0)

end

end ConcertoForm

namespace ConcertoForm

theorem push_pop (p : Params) (s : PathSeg) : (p.push s).pop = p := by
  simp [Params.push, Params.pop]

theorem push_modelManager (p : Params) (s : PathSeg) :
    (p.push s).modelManager = p.modelManager := rfl

/-- The fileWriter component either is untouched or was freshly installed. -/
def FwInv (p q : Params) : Prop :=
  q.fileWriter = p.fileWriter ∨ (p.fileWriter = none ∧ q.fileWriter = some {})

theorem FwInv.refl (p : Params) : FwInv p p := Or.inl rfl

theorem FwInv.trans {p q r : Params} (h1 : FwInv p q) (h2 : FwInv q r) : FwInv p r := by
  rcases h1 with h1 | ⟨h1a, h1b⟩ <;> rcases h2 with h2 | ⟨h2a, h2b⟩
  · exact Or.inl (h2.trans h1)
  · exact Or.inr ⟨h1 ▸ h2a, h2b⟩
  · exact Or.inr ⟨h1a, by rw [h2, h1b]⟩
  · rw [h1b] at h2a; cases h2a

/-- No result is the unrecognised-type error. -/
def NoUnrec {α : Type} (r : Except VisitError α) : Prop :=
  ∀ s, r ≠ Except.error (.unrecognisedType s)

/-- The context invariant relating the entry context to a visitor
result: the model manager is never reassigned, the file writer is at
most installed, and on normal return the path stack is balanced. -/
def CtxInv {α : Type} (p : Params) (out : Except VisitError α × Params) : Prop :=
  out.2.modelManager = p.modelManager ∧
  FwInv p out.2 ∧
  (∀ x, out.1 = Except.ok x → out.2.stack = p.stack)

theorem ctxInv_enum (e : EnumDecl) (p : Params) :
    CtxInv p (visitEnumDeclaration e p) ∧ NoUnrec (visitEnumDeclaration e p).1 := by
  refine ⟨⟨rfl, FwInv.refl p, ?_⟩, ?_⟩ <;> simp [visitEnumDeclaration, NoUnrec]

theorem relArrayElems_params (r : RelationshipData) (el : List Json) (i : Nat) (p : Params) :
    (relationshipArrayElements r el i p).2 = p := by
  induction el generalizing i p with
  | nil => simp [relationshipArrayElements]
  | cons x rest ih =>
    simp [relationshipArrayElements, ih, push_pop]

theorem ctxInv_relationship (r : RelationshipData) (p : Params) :
    CtxInv p (visitRelationship r p) ∧ NoUnrec (visitRelationship r p).1 := by
  unfold visitRelationship
  split
  · exact ⟨⟨rfl, FwInv.refl p, fun _ _ => rfl⟩, by simp [NoUnrec]⟩
  · simp only
    split
    · split
      · split
        · rename_i xs hv
          refine ⟨⟨?_, ?_, ?_⟩, ?_⟩
          · simp [relArrayElems_params, push_pop]
          · simp [relArrayElems_params, push_pop, FwInv]
          · intro x hx; simp [relArrayElems_params, push_pop]
          · simp [NoUnrec]
        · refine ⟨⟨rfl, FwInv.refl p, ?_⟩, ?_⟩
          · intro x hx; cases hx
          · simp [NoUnrec]
      · refine ⟨⟨?_, ?_, ?_⟩, ?_⟩
        · simp [push_pop]
        · simp [push_pop, FwInv]
        · intro x hx; simp [push_pop]
        · simp [NoUnrec]
    · refine ⟨⟨?_, ?_, ?_⟩, ?_⟩
      · simp [push_pop]
      · simp [push_pop, FwInv]
      · intro x hx; simp [push_pop]
      · simp [NoUnrec]

end ConcertoForm

namespace ConcertoForm

theorem declToNode_not_unknown (d : Decl) : (declToNode d).isUnknown = false := by
  cases d <;> rfl

theorem propToNode_not_unknown (pr : Property) : (propToNode pr).isUnknown = false := by
  cases pr <;> rfl

theorem findConcreteSubclass_error_msg (M : ModelManager) (d : Decl)
    (e : VisitError) (h : findConcreteSubclass M d = Except.error e) :
    ∃ m, e = .jsError m := by
  unfold findConcreteSubclass at h
  revert h
  repeat' split
  all_goals intro h
  all_goals try cases h
  all_goals exact ⟨_, rfl⟩

theorem ctxInv_singleton (k : Nat)
    (ihv : ∀ n p, CtxInv p (visit k n p) ∧
      (n.isUnknown = false → NoUnrec (visit k n p).1)) :
    ∀ f cp p, CtxInv p (visitSingletonField k f cp p) ∧
      NoUnrec (visitSingletonField k f cp p).1 := by
  intro f cp p
  rw [visitSingletonField]
  simp only
  split
  · split
    · exact ⟨⟨rfl, FwInv.refl p, fun _ _ => rfl⟩, by simp [NoUnrec]⟩
    · split
      · exact ⟨⟨rfl, FwInv.refl p, fun _ _ => rfl⟩, by simp [NoUnrec]⟩
      · split
        · split
          · exact ⟨⟨rfl, FwInv.refl p, fun _ _ => rfl⟩, by simp [NoUnrec]⟩
          · exact ⟨⟨rfl, FwInv.refl p, fun _ _ => rfl⟩, by simp [NoUnrec]⟩
        · exact ⟨⟨rfl, FwInv.refl p, fun _ _ => rfl⟩, by simp [NoUnrec]⟩
  · split
    · exact ⟨⟨rfl, FwInv.refl p, fun _ _ => rfl⟩, by simp [NoUnrec]⟩
    · rename_i ty0 hty
      split
      · rename_i e hsub
        refine ⟨⟨rfl, FwInv.refl p, fun x hx => by cases hx⟩, ?_⟩
        intro s hs
        obtain ⟨m, hm⟩ := findConcreteSubclass_error_msg p.modelManager ty0 e hsub
        rw [hm] at hs
        simp at hs
      · rename_i ty hsub
        split
        · rename_i r p2 heq
          have h := (ihv (declToNode ty) p).1
          rw [heq] at h
          obtain ⟨hmm, hfw, hst⟩ := h
          refine ⟨⟨hmm, hfw, ?_⟩, by simp [NoUnrec]⟩
          intro x hx
          exact hst r rfl
        · rename_i e p2 heq
          have h := (ihv (declToNode ty) p).1
          have h2 := (ihv (declToNode ty) p).2
            (declToNode_not_unknown _)
          rw [heq] at h h2
          obtain ⟨hmm, hfw, _⟩ := h
          refine ⟨⟨hmm, hfw, fun x hx => by cases hx⟩, ?_⟩
          intro s hs
          exact h2 s (by simpa using hs)

end ConcertoForm

namespace ConcertoForm

theorem pop_stack_of_push (p : Params) (s : PathSeg) (q : Params)
    (h : q.stack = (p.push s).stack) : q.pop.stack = p.stack := by
  simp [Params.pop, Params.push] at *
  simp [h]

theorem ctxInv_fieldArrayElements (k : Nat)
    (ihs : ∀ f cp p, CtxInv p (visitSingletonField k f cp p) ∧
      NoUnrec (visitSingletonField k f cp p).1) :
    ∀ f cp elems i p, CtxInv p (visitFieldArrayElements k f cp elems i p) ∧
      NoUnrec (visitFieldArrayElements k f cp elems i p).1 := by
  intro f cp elems
  induction elems with
  | nil =>
    intro i p
    rw [visitFieldArrayElements]
    exact ⟨⟨rfl, FwInv.refl p, fun _ _ => rfl⟩, by simp [NoUnrec]⟩
  | cons x rest ih =>
    intro i p
    rw [visitFieldArrayElements]
    simp only
    split
    · rename_i r p2 heq
      have h := (ihs f cp (p.push (.index i))).1
      rw [heq] at h
      obtain ⟨hmm, hfw, hst⟩ := h
      have hst2 : p2.stack = (p.push (.index i)).stack := hst r rfl
      split
      · rename_i els p3 heq2
        have h2 := (ih (i + 1) p2.pop).1
        rw [heq2] at h2
        obtain ⟨hmm2, hfw2, hst2b⟩ := h2
        refine ⟨⟨?_, ?_, ?_⟩, by simp [NoUnrec]⟩
        · rw [hmm2]; simpa [Params.pop] using hmm
        · exact FwInv.trans (FwInv.trans (by simpa [FwInv, Params.push] using hfw)
            (Or.inl (by simp [Params.pop]))) hfw2
        · intro xs hx
          rw [hst2b els rfl]
          exact pop_stack_of_push p _ p2 hst2
      · rename_i e p3 heq2
        have h2 := (ih (i + 1) p2.pop).1
        have h2b := (ih (i + 1) p2.pop).2
        rw [heq2] at h2 h2b
        obtain ⟨hmm2, hfw2, _⟩ := h2
        refine ⟨⟨?_, ?_, fun x hx => by cases hx⟩, ?_⟩
        · rw [hmm2]; simpa [Params.pop] using hmm
        · exact FwInv.trans (FwInv.trans (by simpa [FwInv, Params.push] using hfw)
            (Or.inl (by simp [Params.pop]))) hfw2
        · intro s hs; exact h2b s (by simpa using hs)
    · rename_i e p2 heq
      have h := (ihs f cp (p.push (.index i))).1
      have hb := (ihs f cp (p.push (.index i))).2
      rw [heq] at h hb
      obtain ⟨hmm, hfw, _⟩ := h
      refine ⟨⟨by simpa [Params.push] using hmm,
        by simpa [FwInv, Params.push] using hfw, fun x hx => by cases hx⟩, ?_⟩
      intro s hs; exact hb s (by simpa using hs)

end ConcertoForm

namespace ConcertoForm

theorem ctxInv_field (k : Nat)
    (ihs : ∀ f cp p, CtxInv p (visitSingletonField k f cp p) ∧
      NoUnrec (visitSingletonField k f cp p).1)
    (iha : ∀ f cp elems i p, CtxInv p (visitFieldArrayElements k f cp elems i p) ∧
      NoUnrec (visitFieldArrayElements k f cp elems i p).1) :
    ∀ f p, CtxInv p (visitField k f p) ∧ NoUnrec (visitField k f p).1 := by
  intro f p
  rw [visitField]
  simp only
  split
  · exact ⟨⟨rfl, FwInv.refl p, fun _ _ => rfl⟩, by simp [NoUnrec]⟩
  · split
    · split
      · split
        · rename_i xs hv
          split
          · rename_i children p2 heq
            have hiha := iha f ⟨p.skipLabel || f.isArray, pathToString (p.push (PathSeg.name f.name)).stack, get (p.push (PathSeg.name f.name)).json (p.push (PathSeg.name f.name)).stack, toFieldType f.ftype, !f.isOptional⟩ xs 0 (p.push (.name f.name))
            rw [heq] at hiha
            obtain ⟨⟨hmm, hfw, hst⟩, -⟩ := hiha
            refine ⟨⟨?_, ?_, ?_⟩, by simp [NoUnrec]⟩
            · simpa [Params.pop, Params.push] using hmm
            · exact FwInv.trans (by simpa [FwInv, Params.push] using hfw)
                (Or.inl (by simp [Params.pop]))
            · intro x hx
              exact pop_stack_of_push p _ p2 (hst children rfl)
          · rename_i e p2 heq
            have hiha := iha f ⟨p.skipLabel || f.isArray, pathToString (p.push (PathSeg.name f.name)).stack, get (p.push (PathSeg.name f.name)).json (p.push (PathSeg.name f.name)).stack, toFieldType f.ftype, !f.isOptional⟩ xs 0 (p.push (.name f.name))
            rw [heq] at hiha
            obtain ⟨⟨hmm, hfw, -⟩, hb⟩ := hiha
            refine ⟨⟨by simpa [Params.push] using hmm,
              by simpa [FwInv, Params.push] using hfw, fun x hx => by cases hx⟩, ?_⟩
            intro s hs; exact hb s (by simpa using hs)
        · refine ⟨⟨rfl, FwInv.refl p, fun x hx => by cases hx⟩, by simp [NoUnrec]⟩
      · refine ⟨⟨?_, ?_, ?_⟩, by simp [NoUnrec]⟩
        · simp [Params.pop, Params.push]
        · exact Or.inl (by simp [Params.pop, Params.push])
        · intro x hx; simp [push_pop]
    · split
      · rename_i r p2 heq
        have hihs := ihs f ⟨p.skipLabel || f.isArray, pathToString (p.push (PathSeg.name f.name)).stack, get (p.push (PathSeg.name f.name)).json (p.push (PathSeg.name f.name)).stack, toFieldType f.ftype, !f.isOptional⟩ (p.push (.name f.name))
        rw [heq] at hihs
        obtain ⟨⟨hmm, hfw, hst⟩, -⟩ := hihs
        refine ⟨⟨?_, ?_, ?_⟩, by simp [NoUnrec]⟩
        · simpa [Params.pop, Params.push] using hmm
        · exact FwInv.trans (by simpa [FwInv, Params.push] using hfw)
            (Or.inl (by simp [Params.pop]))
        · intro x hx
          exact pop_stack_of_push p _ p2 (hst r rfl)
      · rename_i e p2 heq
        have hihs := ihs f ⟨p.skipLabel || f.isArray, pathToString (p.push (PathSeg.name f.name)).stack, get (p.push (PathSeg.name f.name)).json (p.push (PathSeg.name f.name)).stack, toFieldType f.ftype, !f.isOptional⟩ (p.push (.name f.name))
        rw [heq] at hihs
        obtain ⟨⟨hmm, hfw, -⟩, hb⟩ := hihs
        refine ⟨⟨by simpa [Params.push] using hmm,
          by simpa [FwInv, Params.push] using hfw, fun x hx => by cases hx⟩, ?_⟩
        intro s hs; exact hb s (by simpa using hs)

end ConcertoForm

namespace ConcertoForm

theorem installWriter_mm (p : Params) : (installWriter p).modelManager = p.modelManager := by
  unfold installWriter; split <;> rfl

theorem installWriter_stack (p : Params) : (installWriter p).stack = p.stack := by
  unfold installWriter; split <;> rfl

theorem installWriter_fw (p : Params) : FwInv p (installWriter p) := by
  unfold installWriter
  split
  · rename_i h; exact Or.inr ⟨h, rfl⟩
  · exact Or.inl rfl

theorem CtxInv.comp_install {α : Type} (p : Params) (out : Except VisitError α × Params)
    (h : CtxInv (installWriter p) out) : CtxInv p out :=
  ⟨by rw [h.1, installWriter_mm], FwInv.trans (installWriter_fw p) h.2.1,
   fun x hx => by rw [h.2.2 x hx, installWriter_stack]⟩

theorem ctxInv_monetary (k : Nat)
    (ihv : ∀ n p, CtxInv p (visit k n p) ∧
      (n.isUnknown = false → NoUnrec (visit k n p).1)) :
    ∀ c p, CtxInv p (visitMonetaryAmount k c p) ∧ NoUnrec (visitMonetaryAmount k c p).1 := by
  intro c p
  rw [visitMonetaryAmount]
  split
  · exact ⟨⟨rfl, Or.inl rfl, fun x hx => by cases hx⟩, by simp [NoUnrec]⟩
  · rename_i pr0 h0
    split
    · rename_i e p2 heq
      have h := ihv (propToNode pr0) { p with skipLabel := true }
      rw [heq] at h
      obtain ⟨⟨hmm, hfw, -⟩, hnu⟩ := h
      refine ⟨⟨hmm, FwInv.trans (Or.inl rfl) hfw, fun x hx => by cases hx⟩, ?_⟩
      intro s hs
      exact hnu (propToNode_not_unknown pr0) s (by simpa using hs)
    · rename_i r0 p2 heq
      have h := ihv (propToNode pr0) { p with skipLabel := true }
      rw [heq] at h
      obtain ⟨⟨hmm, hfw, hst⟩, -⟩ := h
      have hst0 := hst r0 rfl
      split
      · exact ⟨⟨hmm, FwInv.trans (Or.inl rfl) hfw, fun x hx => by cases hx⟩,
          by simp [NoUnrec]⟩
      · rename_i pr1 h1
        split
        · rename_i e p3 heq2
          have h2 := ihv (propToNode pr1) p2
          rw [heq2] at h2
          obtain ⟨⟨hmm2, hfw2, -⟩, hnu2⟩ := h2
          refine ⟨⟨hmm2.trans hmm, FwInv.trans (FwInv.trans (Or.inl rfl) hfw) hfw2,
            fun x hx => by cases hx⟩, ?_⟩
          intro s hs
          exact hnu2 (propToNode_not_unknown pr1) s (by simpa using hs)
        · rename_i r1 p3 heq2
          have h2 := ihv (propToNode pr1) p2
          rw [heq2] at h2
          obtain ⟨⟨hmm2, hfw2, hst2⟩, -⟩ := h2
          refine ⟨⟨hmm2.trans hmm, ?_, ?_⟩, by simp [NoUnrec]⟩
          · exact FwInv.trans (FwInv.trans (Or.inl rfl) hfw) hfw2
          · intro x hx
            show p3.stack = p.stack
            rw [hst2 r1 rfl, hst0]

theorem ctxInv_duration (k : Nat)
    (ihv : ∀ n p, CtxInv p (visit k n p) ∧
      (n.isUnknown = false → NoUnrec (visit k n p).1)) :
    ∀ c p, CtxInv p (visitDuration k c p) ∧ NoUnrec (visitDuration k c p).1 := by
  intro c p
  rw [visitDuration]
  split
  · exact ⟨⟨rfl, Or.inl rfl, fun x hx => by cases hx⟩, by simp [NoUnrec]⟩
  · rename_i pr0 h0
    split
    · rename_i e p2 heq
      have h := ihv (propToNode pr0) { p with skipLabel := true }
      rw [heq] at h
      obtain ⟨⟨hmm, hfw, -⟩, hnu⟩ := h
      refine ⟨⟨hmm, FwInv.trans (Or.inl rfl) hfw, fun x hx => by cases hx⟩, ?_⟩
      intro s hs
      exact hnu (propToNode_not_unknown pr0) s (by simpa using hs)
    · rename_i r0 p2 heq
      have h := ihv (propToNode pr0) { p with skipLabel := true }
      rw [heq] at h
      obtain ⟨⟨hmm, hfw, hst⟩, -⟩ := h
      have hst0 := hst r0 rfl
      split
      · exact ⟨⟨hmm, FwInv.trans (Or.inl rfl) hfw, fun x hx => by cases hx⟩,
          by simp [NoUnrec]⟩
      · rename_i pr1 h1
        split
        · rename_i e p3 heq2
          have h2 := ihv (propToNode pr1) p2
          rw [heq2] at h2
          obtain ⟨⟨hmm2, hfw2, -⟩, hnu2⟩ := h2
          refine ⟨⟨hmm2.trans hmm, FwInv.trans (FwInv.trans (Or.inl rfl) hfw) hfw2,
            fun x hx => by cases hx⟩, ?_⟩
          intro s hs
          exact hnu2 (propToNode_not_unknown pr1) s (by simpa using hs)
        · rename_i r1 p3 heq2
          have h2 := ihv (propToNode pr1) p2
          rw [heq2] at h2
          obtain ⟨⟨hmm2, hfw2, hst2⟩, -⟩ := h2
          refine ⟨⟨hmm2.trans hmm, ?_, ?_⟩, by simp [NoUnrec]⟩
          · exact FwInv.trans (FwInv.trans (Or.inl rfl) hfw) hfw2
          · intro x hx
            show p3.stack = p.stack
            rw [hst2 r1 rfl, hst0]

theorem ctxInv_party (k : Nat)
    (ihv : ∀ n p, CtxInv p (visit k n p) ∧
      (n.isUnknown = false → NoUnrec (visit k n p).1)) :
    ∀ c p, CtxInv p (visitAccordParty k c p) ∧ NoUnrec (visitAccordParty k c p).1 := by
  intro c p
  rw [visitAccordParty]
  split
  · exact ⟨⟨rfl, Or.inl rfl, fun x hx => by cases hx⟩, by simp [NoUnrec]⟩
  · rename_i pr0 h0
    split
    · rename_i e p2 heq
      have h := ihv (propToNode pr0) { p with skipLabel := true }
      rw [heq] at h
      obtain ⟨⟨hmm, hfw, -⟩, hnu⟩ := h
      refine ⟨⟨hmm, FwInv.trans (Or.inl rfl) hfw, fun x hx => by cases hx⟩, ?_⟩
      intro s hs
      exact hnu (propToNode_not_unknown pr0) s (by simpa using hs)
    · rename_i r0 p2 heq
      have h := ihv (propToNode pr0) { p with skipLabel := true }
      rw [heq] at h
      obtain ⟨⟨hmm, hfw, hst⟩, -⟩ := h
      refine ⟨⟨hmm, FwInv.trans (Or.inl rfl) hfw, ?_⟩, by simp [NoUnrec]⟩
      intro x hx
      show p2.stack = p.stack
      exact hst r0 rfl

theorem ctxInv_acceptProperties (k : Nat)
    (ihv : ∀ n p, CtxInv p (visit k n p) ∧
      (n.isUnknown = false → NoUnrec (visit k n p).1)) :
    ∀ props p, CtxInv p (acceptProperties k props p) ∧
      NoUnrec (acceptProperties k props p).1 := by
  intro props
  induction props with
  | nil =>
    intro p
    rw [acceptProperties]
    exact ⟨⟨rfl, FwInv.refl p, fun _ _ => rfl⟩, by simp [NoUnrec]⟩
  | cons pr rest ih =>
    intro p
    rw [acceptProperties]
    split
    · rename_i e p1 heq
      have h := ihv (propToNode pr) p
      rw [heq] at h
      obtain ⟨⟨hmm, hfw, -⟩, hnu⟩ := h
      refine ⟨⟨hmm, hfw, fun x hx => by cases hx⟩, ?_⟩
      intro s hs
      exact hnu (propToNode_not_unknown pr) s (by simpa using hs)
    · rename_i r p1 heq
      have h := ihv (propToNode pr) p
      rw [heq] at h
      obtain ⟨⟨hmm, hfw, hst⟩, -⟩ := h
      have hst1 := hst r rfl
      split
      · rename_i rs p2 heq2
        have h2 := ih p1
        rw [heq2] at h2
        obtain ⟨⟨hmm2, hfw2, hst2⟩, -⟩ := h2
        refine ⟨⟨hmm2.trans hmm, FwInv.trans hfw hfw2, ?_⟩, by simp [NoUnrec]⟩
        intro x hx
        rw [hst2 rs rfl, hst1]
      · rename_i e p2 heq2
        have h2 := ih p1
        rw [heq2] at h2
        obtain ⟨⟨hmm2, hfw2, -⟩, hnu2⟩ := h2
        refine ⟨⟨hmm2.trans hmm, FwInv.trans hfw hfw2, fun x hx => by cases hx⟩, ?_⟩
        intro s hs
        exact hnu2 s (by simpa using hs)

theorem recordHiddenId_params (c : ClassDecl) (p : Params) :
    (recordHiddenId c p).2.modelManager = p.modelManager ∧
    (recordHiddenId c p).2.fileWriter = p.fileWriter ∧
    (recordHiddenId c p).2.stack = p.stack := by
  unfold recordHiddenId
  repeat' split
  all_goals exact ⟨rfl, rfl, rfl⟩

theorem recordHiddenId_noUnrec (c : ClassDecl) (p : Params) (e : VisitError) (q : Params)
    (h : recordHiddenId c p = (some e, q)) : ∀ s, e ≠ VisitError.unrecognisedType s := by
  unfold recordHiddenId at h
  revert h
  repeat' split
  all_goals intro h
  all_goals try cases h
  all_goals intro s hs
  all_goals cases hs

theorem ctxInv_classDecl (k : Nat)
    (ihm : ∀ c p, CtxInv p (visitMonetaryAmount k c p) ∧ NoUnrec (visitMonetaryAmount k c p).1)
    (ihd : ∀ c p, CtxInv p (visitDuration k c p) ∧ NoUnrec (visitDuration k c p).1)
    (ihp : ∀ c p, CtxInv p (visitAccordParty k c p) ∧ NoUnrec (visitAccordParty k c p).1)
    (iha : ∀ props p, CtxInv p (acceptProperties k props p) ∧
      NoUnrec (acceptProperties k props p).1) :
    ∀ c p, CtxInv p (visitClassDeclaration k c p) ∧
      NoUnrec (visitClassDeclaration k c p).1 := by
  intro c p
  rw [visitClassDeclaration]
  split
  · rename_i e p1 heq
    have h := recordHiddenId_params c p
    rw [heq] at h
    refine ⟨⟨h.1, Or.inl h.2.1, fun x hx => by cases hx⟩, ?_⟩
    intro s hs
    exact recordHiddenId_noUnrec c p e p1 heq s (by simpa using hs)
  · rename_i p1 heq
    have h := recordHiddenId_params c p
    rw [heq] at h
    obtain ⟨hmm, hfw, hst⟩ := h
    have base : CtxInv p ((Except.ok (none : Option UIElement), p1)) :=
      ⟨hmm, Or.inl hfw, fun x hx => hst⟩
    have chain : ∀ {α : Type} (out : Except VisitError α × Params),
        CtxInv p1 out → CtxInv p out := by
      intro α out h1
      exact ⟨h1.1.trans hmm, FwInv.trans (Or.inl hfw) h1.2.1,
        fun x hx => (h1.2.2 x hx).trans hst⟩
    split
    · exact ⟨base, by simp [NoUnrec]⟩
    · split
      · exact ⟨chain _ (ihm c p1).1, (ihm c p1).2⟩
      · split
        · exact ⟨chain _ (ihd c p1).1, (ihd c p1).2⟩
        · split
          · exact ⟨chain _ (ihp c p1).1, (ihp c p1).2⟩
          · split
            · rename_i rs p2 heq2
              have h2 := iha c.props p1
              rw [heq2] at h2
              obtain ⟨⟨hmm2, hfw2, hst2⟩, -⟩ := h2
              refine ⟨⟨hmm2.trans hmm, FwInv.trans (Or.inl hfw) hfw2, ?_⟩,
                by simp [NoUnrec]⟩
              intro x hx
              rw [hst2 rs rfl, hst]
            · rename_i e p2 heq2
              have h2 := iha c.props p1
              rw [heq2] at h2
              obtain ⟨⟨hmm2, hfw2, -⟩, hnu2⟩ := h2
              refine ⟨⟨hmm2.trans hmm, FwInv.trans (Or.inl hfw) hfw2,
                fun x hx => by cases hx⟩, ?_⟩
              intro s hs
              exact hnu2 s (by simpa using hs)

theorem ctxInv_visit_zero :
    ∀ n p, CtxInv p (visit 0 n p) ∧
      (n.isUnknown = false → NoUnrec (visit 0 n p).1) := by
  intro n p
  simp only [visit.eq_def]
  exact ⟨⟨installWriter_mm p, installWriter_fw p, fun x hx => by cases hx⟩,
    fun _ => by simp [NoUnrec]⟩

theorem ctxInv_visit_succ (k : Nat)
    (ihc : ∀ c p, CtxInv p (visitClassDeclaration k c p) ∧
      NoUnrec (visitClassDeclaration k c p).1)
    (ihf : ∀ f p, CtxInv p (visitField k f p) ∧ NoUnrec (visitField k f p).1) :
    ∀ n p, CtxInv p (visit (k + 1) n p) ∧
      (n.isUnknown = false → NoUnrec (visit (k + 1) n p).1) := by
  intro n p
  cases n with
  | enumDeclaration e =>
    simp only [visit.eq_def]
    exact ⟨CtxInv.comp_install p _ (ctxInv_enum e (installWriter p)).1,
      fun _ => (ctxInv_enum e (installWriter p)).2⟩
  | classDeclaration c =>
    simp only [visit.eq_def]
    exact ⟨CtxInv.comp_install p _ (ihc c (installWriter p)).1,
      fun _ => (ihc c (installWriter p)).2⟩
  | field f =>
    simp only [visit.eq_def]
    exact ⟨CtxInv.comp_install p _ (ihf f (installWriter p)).1,
      fun _ => (ihf f (installWriter p)).2⟩
  | relationshipDeclaration r =>
    simp only [visit.eq_def]
    exact ⟨CtxInv.comp_install p _ (ctxInv_relationship r (installWriter p)).1,
      fun _ => (ctxInv_relationship r (installWriter p)).2⟩
  | unknown d =>
    simp only [visit.eq_def]
    refine ⟨⟨installWriter_mm p, installWriter_fw p, fun x hx => by cases hx⟩, ?_⟩
    intro h
    cases h

theorem visit_ctxInv :
    ∀ fuel n p, CtxInv p (visit fuel n p) ∧
      (n.isUnknown = false → NoUnrec (visit fuel n p).1) := by
  intro fuel
  induction fuel with
  | zero => exact ctxInv_visit_zero
  | succ k ih =>
    have hs := ctxInv_singleton k ih
    have ha := ctxInv_fieldArrayElements k hs
    have hf := ctxInv_field k hs ha
    have hm := ctxInv_monetary k ih
    have hd := ctxInv_duration k ih
    have hp := ctxInv_party k ih
    have hap := ctxInv_acceptProperties k ih
    have hcd := ctxInv_classDecl k hm hd hp hap
    exact ctxInv_visit_succ k hcd hf

theorem visitField_ctxInv (fuel : Nat) (f : FieldData) (p : Params) :
    CtxInv p (visitField fuel f p) ∧ NoUnrec (visitField fuel f p).1 :=
  ctxInv_field fuel (ctxInv_singleton fuel (visit_ctxInv fuel))
    (ctxInv_fieldArrayElements fuel (ctxInv_singleton fuel (visit_ctxInv fuel))) f p

end ConcertoForm

namespace ConcertoForm

theorem installWriter_fileWriter (p : Params) :
    (installWriter p).fileWriter = some (p.fileWriter.getD { buffer := [] }) := by
  unfold installWriter
  split
  · rename_i h; rw [h]; rfl
  · rename_i w h; rw [h]; rfl

theorem FwInv.of_some {p q : Params} (w : Writer) (hp : p.fileWriter = some w)
    (h : FwInv p q) : q.fileWriter = some w := by
  rcases h with h | ⟨h1, -⟩
  · rw [h, hp]
  · rw [hp] at h1; cases h1

/-- C10: every `visit` call installs a fresh `Writer` into a context
lacking one before dispatching, and leaves an already-present
`fileWriter` unchanged: at exit the field always holds the entry writer
if there was one and a fresh writer otherwise. -/
theorem C10_visit_installs_fileWriter (fuel : Nat) (n : SchemaNode) (p : Params) :
    (visit fuel n p).2.fileWriter = some (p.fileWriter.getD { buffer := [] }) := by
  cases fuel with
  | zero =>
    simp only [visit.eq_def]
    exact installWriter_fileWriter p
  | succ k =>
    have hins := installWriter_fileWriter p
    cases n with
    | enumDeclaration e =>
      simp only [visit.eq_def]
      exact FwInv.of_some _ hins (ctxInv_enum e (installWriter p)).1.2.1
    | classDeclaration c =>
      simp only [visit.eq_def]
      have hc := ctxInv_classDecl k (ctxInv_monetary k (visit_ctxInv k))
        (ctxInv_duration k (visit_ctxInv k)) (ctxInv_party k (visit_ctxInv k))
        (ctxInv_acceptProperties k (visit_ctxInv k)) c (installWriter p)
      exact FwInv.of_some _ hins hc.1.2.1
    | field f =>
      simp only [visit.eq_def]
      exact FwInv.of_some _ hins (visitField_ctxInv k f (installWriter p)).1.2.1
    | relationshipDeclaration r =>
      simp only [visit.eq_def]
      exact FwInv.of_some _ hins (ctxInv_relationship r (installWriter p)).1.2.1
    | unknown d =>
      simp only [visit.eq_def]
      exact hins

/-- C7: a field or relationship hidden by policy (`isHidden`) or whose
fully qualified name is in the accumulated hidden-fields set
(`hideProperty`) renders as null with the context — in particular the
path stack — completely untouched, so nothing is pushed, no document
value is read, and no element appears in the returned tree. -/
theorem C7_hidden_renders_null (fuel : Nat) (f : FieldData) (r : RelationshipData)
    (p q : Params)
    (hf : hideProperty f.fqn p = true ∨ isHidden f.decorators = true)
    (hr : hideProperty r.fqn q = true ∨ isHidden r.decorators = true) :
    visitField fuel f p = (Except.ok none, p) ∧
    visitRelationship r q = (Except.ok none, q) := by
  constructor
  · rw [visitField]
    have hcond : (hideProperty f.fqn p || isHidden f.decorators) = true := by
      rcases hf with h | h <;> simp [h]
    simp [hcond]
  · rw [visitRelationship]
    have hcond : (hideProperty r.fqn q || isHidden r.decorators) = true := by
      rcases hr with h | h <;> simp [h]
    simp [hcond]

def fC7 : FieldData :=
  { name := "ssn", fqn := "ns.Person.ssn", ftype := "String", fqTypeName := "String",
    isArray := false, isOptional := false, isPrimitive := true,
    decorators := [⟨"Hidden", []⟩] }

def rC7 : RelationshipData :=
  { name := "owner", fqn := "ns.Asset.owner", nspace := "ns", rtype := "Person",
    isArray := false, isOptional := false, decorators := [] }

def pC7 : Params :=
  { json := .obj [], stack := [], modelManager := ⟨[]⟩,
    hiddenFields := some ["ns.Asset.owner"] }

theorem C7_witness :
    visitField 1 fC7 pC7 = (Except.ok none, pC7) ∧
    visitRelationship rC7 pC7 = (Except.ok none, pC7) :=
  C7_hidden_renders_null 1 fC7 rC7 pC7 pC7
    (Or.inr (by decide)) (Or.inl (by decide))

theorem recordHiddenId_fst_eq_none (cd : ClassDecl) (p : Params)
    (hcons : ∀ n, cd.idFieldName = some n → ¬ n = "" → (cd.getProperty n).isSome) :
    (recordHiddenId cd p).1 = none := by
  unfold recordHiddenId
  split
  · split
    · rename_i n hn
      split
      · rfl
      · rename_i hne
        split
        · rfl
        · rename_i hp
          have := hcons n hn hne
          rw [hp] at this
          cases this
    · rfl
  · rfl

theorem recordHiddenId_hiddenFields (cd : ClassDecl) (p : Params) (n : String)
    (prop : Property) (hhi : p.hideIdentifiers = true)
    (hn : cd.idFieldName = some n) (hne : ¬ n = "")
    (hp : cd.getProperty n = some prop) :
    (recordHiddenId cd p).2.hiddenFields =
      some (p.hiddenFields.getD [] ++ [prop.fqn]) := by
  unfold recordHiddenId
  rw [if_pos hhi, hn]
  simp only [hne, if_neg, ite_false, hp]
  rfl

/-- C8: an abstract class declaration renders as null, and this happens
after the `hideIdentifiers` bookkeeping, so the abstract class's
identifier field is still appended to the accumulated hidden-fields set.
The well-formedness hypothesis says the declared identifier field name
resolves to a property, which concerto-core guarantees. -/
theorem C8_abstract_returns_null (fuel : Nat) (cd : ClassDecl) (p : Params)
    (habs : cd.isAbstract = true)
    (hcons : ∀ n, cd.idFieldName = some n → ¬ n = "" → (cd.getProperty n).isSome) :
    (visitClassDeclaration fuel cd p).1 = Except.ok none ∧
    (∀ n prop, p.hideIdentifiers = true → cd.idFieldName = some n → ¬ n = "" →
      cd.getProperty n = some prop →
      (visitClassDeclaration fuel cd p).2.hiddenFields =
        some (p.hiddenFields.getD [] ++ [prop.fqn])) := by
  rw [visitClassDeclaration]
  have h1 := recordHiddenId_fst_eq_none cd p hcons
  constructor
  · split
    · rename_i e p1 heq
      rw [heq] at h1
      cases h1
    · rw [if_pos habs]
  · intro n prop hhi hn hne hp
    split
    · rename_i e p1 heq
      rw [heq] at h1
      cases h1
    · rename_i p1 heq
      rw [if_pos habs]
      have h2 := recordHiddenId_hiddenFields cd p n prop hhi hn hne hp
      rw [heq] at h2
      exact h2

def fldC8 : FieldData :=
  { name := "id", fqn := "ns.Base.id", ftype := "String", fqTypeName := "String",
    isArray := false, isOptional := false, isPrimitive := true, decorators := [] }

def cdC8 : ClassDecl :=
  { fqn := "ns.Base", name := "Base", isAbstract := true, idFieldName := some "id",
    props := [.field fldC8] }

def pC8 : Params :=
  { json := .obj [], stack := [], modelManager := ⟨[]⟩, hideIdentifiers := true }

theorem C8_witness :
    (visitClassDeclaration 1 cdC8 pC8).1 = Except.ok none ∧
    (visitClassDeclaration 1 cdC8 pC8).2.hiddenFields = some ["ns.Base.id"] := by
  have h := C8_abstract_returns_null 1 cdC8 pC8 (by decide)
    (by intro n hn hne; cases hn; decide)
  refine ⟨h.1, ?_⟩
  have h2 := h.2 "id" (.field fldC8) rfl rfl (by decide) (by decide)
  simpa [fldC8] using h2

/-- C2: `visit` dispatches solely on the four known variants; it raises
the unrecognised-type error exactly when the node is outside them (with
at least one unit of fuel, so that the embedding's fuel exhaustion
cannot mask the dispatch). -/
theorem C2_dispatch_unrecognised (fuel : Nat) (n : SchemaNode) (p : Params)
    (hfuel : 1 ≤ fuel) :
    (∃ s, (visit fuel n p).1 = Except.error (.unrecognisedType s)) ↔
      n.isUnknown = true := by
  constructor
  · rintro ⟨s, hs⟩
    by_contra h
    exact (visit_ctxInv fuel n p).2 (by simpa using h) s hs
  · intro h
    cases n with
    | unknown d =>
      obtain ⟨k, rfl⟩ : ∃ k, fuel = k + 1 := ⟨fuel - 1, by omega⟩
      exact ⟨d, by simp [visit.eq_def]⟩
    | enumDeclaration e => simp [SchemaNode.isUnknown] at h
    | classDeclaration c => simp [SchemaNode.isUnknown] at h
    | field f => simp [SchemaNode.isUnknown] at h
    | relationshipDeclaration r => simp [SchemaNode.isUnknown] at h

theorem C2_witness :
    1 ≤ 1 ∧
    ((∃ s, (visit 1 (SchemaNode.unknown "a plain object") pC7).1 =
        Except.error (.unrecognisedType s)) ↔
      (SchemaNode.unknown "a plain object").isUnknown = true) :=
  ⟨by decide, C2_dispatch_unrecognised 1 (SchemaNode.unknown "a plain object") pC7 (by decide)⟩

/-- C1: whenever `visitField` or `visitRelationship` returns normally —
in the hidden, scalar and array-valued branches alike — the path stack
of the context at exit equals (in depth and contents) the stack at
entry. -/
theorem C1_stack_balance (fuel : Nat) (f : FieldData) (r : RelationshipData)
    (p q : Params) :
    (∀ x, (visitField fuel f p).1 = Except.ok x →
      (visitField fuel f p).2.stack = p.stack) ∧
    (∀ x, (visitRelationship r q).1 = Except.ok x →
      (visitRelationship r q).2.stack = q.stack) :=
  ⟨(visitField_ctxInv fuel f p).1.2.2, (ctxInv_relationship r q).1.2.2⟩

theorem C1_witness :
    (visitField 1 fC7 pC7).2.stack = pC7.stack ∧
    (visitRelationship rC7 pC7).2.stack = pC7.stack := by
  constructor
  · refine (C1_stack_balance 1 fC7 rC7 pC7 pC7).1 none ?_
    rw [(C7_hidden_renders_null 1 fC7 rC7 pC7 pC7 (Or.inr (by decide))
      (Or.inl (by decide))).1]
  · refine (C1_stack_balance 1 fC7 rC7 pC7 pC7).2 none ?_
    rw [(C7_hidden_renders_null 1 fC7 rC7 pC7 pC7 (Or.inr (by decide))
      (Or.inl (by decide))).2]

end ConcertoForm

namespace ConcertoForm

/-- C3 (custom selector): for a primitive, non-Boolean, non-datetime
field carrying a custom-selector decorator, `visitSingletonField` throws
the missing-custom-selector configuration error precisely when the
decorator's key has no entry in the context's `customSelectors`
registry, returning no element and leaving the context untouched; when
the key is registered, it returns a dropdown populated from the
registered option list instead of a plain input. -/
theorem C3_custom_selector (fuel : Nat) (f : FieldData) (cp : CommonProps)
    (p : Params) (k : String)
    (hprim : f.isPrimitive = true)
    (hbool : (f.ftype == "Boolean") = false)
    (hdt : (toFieldType f.ftype == "datetime-local") = false)
    (hkey : getCustomSelectDecoratorKey f = some k) :
    (lookupSelector p.customSelectors k = none ↔
      visitSingletonField fuel f cp p =
        (Except.error (.customSelectorNotFound k), p)) ∧
    (∀ opts, lookupSelector p.customSelectors k = some opts →
      visitSingletonField fuel f cp p = (Except.ok (some (.concertoDropdown
        (pathToString p.stack) ("select-" ++ pathToString p.stack)
        (get p.json p.stack) (get p.json p.stack)
        (opts.map (fun o => ⟨"option-" ++ o.value, o.value, o.text⟩)))), p)) := by
  have hbool' : ¬ f.ftype = "Boolean" := by simpa using hbool
  have hdt' : ¬ toFieldType f.ftype = "datetime-local" := by simpa using hdt
  rcases hsel : lookupSelector p.customSelectors k with _ | opts
  · constructor
    · rw [visitSingletonField]
      simp [hprim, hbool', hdt', hkey, hsel]
    · intro opts hopts
      cases hopts
  · constructor
    · rw [visitSingletonField]
      simp [hprim, hbool', hdt', hkey, hsel]
    · intro opts2 hopts
      have heq : opts2 = opts := (Option.some.inj hopts).symm
      subst heq
      rw [visitSingletonField]
      simp [hprim, hbool', hdt', hkey, hsel]

def fC3 : FieldData :=
  { name := "size", fqn := "ns.Shirt.size", ftype := "String", fqTypeName := "String",
    isArray := false, isOptional := false, isPrimitive := true,
    decorators := [⟨"CustomSelector", ["sizes"]⟩] }

def cpC3 : CommonProps :=
  { skipLabel := false, id := "size", value := none, ftype := "text", required := true }

theorem C3_witness :
    (lookupSelector pC7.customSelectors "sizes" = none ↔
      visitSingletonField 1 fC3 cpC3 pC7 =
        (Except.error (.customSelectorNotFound "sizes"), pC7)) ∧
    (∀ opts, lookupSelector pC7.customSelectors "sizes" = some opts →
      visitSingletonField 1 fC3 cpC3 pC7 = (Except.ok (some (.concertoDropdown
        (pathToString pC7.stack) ("select-" ++ pathToString pC7.stack)
        (get pC7.json pC7.stack) (get pC7.json pC7.stack)
        (opts.map (fun o => ⟨"option-" ++ o.value, o.value, o.text⟩)))), pC7)) :=
  C3_custom_selector 1 fC3 cpC3 pC7 "sizes" (by decide) (by decide) (by decide) (by decide)

/-- C4 amended: each composite visitor forces the skip-label flag true
while rendering its sub-properties and on every normal return leaves the
flag `false` — the source writes the constant `false` afterwards rather
than restoring the entry value, so the flag at exit equals the flag at
entry only when the entry value was already `false`. -/
theorem C4_amended_skiplabel_false_on_exit (fuel : Nat) (c : ClassDecl) (p : Params) :
    (∀ r, (visitMonetaryAmount fuel c p).1 = Except.ok r →
      (visitMonetaryAmount fuel c p).2.skipLabel = false) ∧
    (∀ r, (visitDuration fuel c p).1 = Except.ok r →
      (visitDuration fuel c p).2.skipLabel = false) ∧
    (∀ r, (visitAccordParty fuel c p).1 = Except.ok r →
      (visitAccordParty fuel c p).2.skipLabel = false) := by
  refine ⟨?_, ?_, ?_⟩
  · rw [visitMonetaryAmount]
    split
    · intro r h; cases h
    · split
      · intro r h; cases h
      · split
        · intro r h; cases h
        · split
          · intro r h; cases h
          · intro r h; rfl
  · rw [visitDuration]
    split
    · intro r h; cases h
    · split
      · intro r h; cases h
      · split
        · intro r h; cases h
        · split
          · intro r h; cases h
          · intro r h; rfl
  · rw [visitAccordParty]
    split
    · intro r h; cases h
    · split
      · intro r h; cases h
      · intro r h; rfl

def fMoneyVal : FieldData :=
  { name := "doubleValue", fqn := "org.accordproject.money.MonetaryAmount.doubleValue",
    ftype := "Double", fqTypeName := "Double", isArray := false, isOptional := false,
    isPrimitive := true, decorators := [] }

def fMoneyCur : FieldData :=
  { name := "currencyCode", fqn := "org.accordproject.money.MonetaryAmount.currencyCode",
    ftype := "String", fqTypeName := "String", isArray := false, isOptional := false,
    isPrimitive := true, decorators := [] }

def cdC4 : ClassDecl :=
  { fqn := "org.accordproject.money.MonetaryAmount", name := "MonetaryAmount",
    isAbstract := false, idFieldName := none,
    props := [.field fMoneyVal, .field fMoneyCur] }

/-- The context of the C4 scenario: the skip-label flag is `true` at
entry. -/
def pC4 : Params :=
  { json := .obj [], stack := [], modelManager := ⟨[]⟩, skipLabel := true }

/-- C4 counterexample: at a concrete monetary-amount class and a context
whose skip-label flag is `true` at entry, the flag at exit of
`visitMonetaryAmount` is `false` — not the entry value, refuting the
claim that the flag is restored to its entry value for every entry
value. -/
theorem C4_counterexample :
    pC4.skipLabel = true ∧
    (visitMonetaryAmount 1 cdC4 pC4).1 = Except.ok (some (.monetaryAmount ("MonetaryAmount".toLower)
      (some (.concertoInput "doubleValue" "doubleValue" none "number" true true))
      (some (.concertoInput "currencyCode" "currencyCode" none "text" true true)))) ∧
    (visitMonetaryAmount 1 cdC4 pC4).2.skipLabel = false := by
  refine ⟨rfl, ?_, ?_⟩ <;>
    simp [visitMonetaryAmount, visit, visitField, visitSingletonField, cdC4, pC4,
      fMoneyVal, fMoneyCur, propToNode, installWriter, hideProperty, isHidden,
      getDecorator, getCustomSelectDecoratorKey, toFieldType, Params.push, Params.pop,
      pathToString, get]

theorem C4_witness :
    (visitMonetaryAmount 1 cdC4 pC4).1 = Except.ok (some (.monetaryAmount ("MonetaryAmount".toLower)
      (some (.concertoInput "doubleValue" "doubleValue" none "number" true true))
      (some (.concertoInput "currencyCode" "currencyCode" none "text" true true)))) ∧
    (visitMonetaryAmount 1 cdC4 pC4).2.skipLabel = false := by
  refine ⟨C4_counterexample.2.1, ?_⟩
  exact (C4_amended_skiplabel_false_on_exit 1 cdC4 pC4).1 _ C4_counterexample.2.1

/-- C5 amended: `visitEnumDeclaration` renders a dropdown whose current
value and display text are the document value at the current path key
and whose option list has exactly one option per declared literal in
declaration order, each option's value and display text being the
literal name and its option key being `option-` followed by the literal
name (not the bare literal name). -/
theorem C5_amended_enum_dropdown (e : EnumDecl) (p : Params) :
    visitEnumDeclaration e p = (Except.ok (some (.concertoDropdown
      (pathToString p.stack) ("enum-" ++ pathToString p.stack)
      (get p.json p.stack) (get p.json p.stack)
      (e.literals.map (fun n => ⟨"option-" ++ n, n, n⟩)))), p) := rfl

def enumC5 : EnumDecl := { fqn := "ns.Size", name := "Size", literals := ["A", "B", "C"] }

def pC5 : Params :=
  { json := .obj [("e", .str "B")], stack := [.name "e"], modelManager := ⟨[]⟩ }

/-- C5 counterexample: for the enumeration with literals A, B, C and a
document whose value at the current key is "B", the rendered selector
does carry current value "B" and one option per literal in order, but
the first option's key is the string `option-A`, which differs from the
literal name `A` — refuting the claim that each option's key equals the
literal name. -/
theorem C5_counterexample :
    (visitEnumDeclaration enumC5 pC5).1 = Except.ok (some (.concertoDropdown
      "e" "enum-e" (some (.str "B")) (some (.str "B"))
      [⟨"option-A", "A", "A"⟩, ⟨"option-B", "B", "B"⟩, ⟨"option-C", "C", "C"⟩])) ∧
    (("option-A" : String) == "A") = false := by
  exact ⟨rfl, rfl⟩

end ConcertoForm

namespace ConcertoForm

theorem fieldArrayElements_shape (fuel : Nat) (f : FieldData) (cp : CommonProps) :
    ∀ elems (i : Nat) p els q,
      visitFieldArrayElements fuel f cp elems i p = (Except.ok els, q) →
      els.length = elems.length ∧
      ∀ j, j < elems.length → ∃ inner, els.get? j =
        some (some (.concertoArrayElement
          (f.name ++ "_wrapper[" ++ toString (i + j) ++ "]") (i + j) inner)) := by
  intro elems
  induction elems with
  | nil =>
    intro i p els q h
    rw [visitFieldArrayElements] at h
    injection h with h1 h2
    injection h1 with h1
    subst h1
    exact ⟨rfl, fun j hj => absurd hj (by simp)⟩
  | cons x rest ih =>
    intro i p els q h
    rw [visitFieldArrayElements] at h
    split at h
    · rename_i r p2 heq
      split at h
      · rename_i els2 p3 heq2
        injection h with h1 h2
        injection h1 with h1
        subst h1
        have hrec := ih (i + 1) p2.pop els2 p3 heq2
        constructor
        · simp [hrec.1]
        · intro j hj
          cases j with
          | zero =>
            exact ⟨r, by simp⟩
          | succ jj =>
            have hjj : jj < rest.length := by simpa [Nat.succ_lt_succ_iff] using hj
            obtain ⟨inner, hinner⟩ := hrec.2 jj hjj
            refine ⟨inner, ?_⟩
            have harith : i + (jj + 1) = i + 1 + jj := by omega
            rw [harith]
            simpa using hinner
      · rename_i e p3 heq2
        injection h with h1 h2
        cases h1
    · rename_i e p2 heq
      injection h with h1 h2
      cases h1

theorem relArrayElements_shape (r : RelationshipData) :
    ∀ elems (i : Nat) p,
      (relationshipArrayElements r elems i p).1.length = elems.length ∧
      ∀ j, j < elems.length →
        (relationshipArrayElements r elems i p).1.get? j =
          some (some (.concertoArrayElement
            ("relationship-" ++ pathToString (p.stack ++ [.index (i + j)]) ++ "-" ++
              toString (i + j)) (i + j)
            (some (.concertoRelationship (pathToString (p.stack ++ [.index (i + j)]))
              (get p.json (p.stack ++ [.index (i + j)])))))) := by
  intro elems
  induction elems with
  | nil =>
    intro i p
    rw [relationshipArrayElements]
    exact ⟨rfl, fun j hj => absurd hj (by simp)⟩
  | cons x rest ih =>
    intro i p
    rw [relationshipArrayElements]
    have hpop : (p.push (.index i)).pop = p := push_pop p _
    constructor
    · simp only
      rw [hpop]
      simp [(ih (i + 1) p).1]
    · intro j hj
      cases j with
      | zero =>
        simp [Params.push, Nat.add_zero]
      | succ jj =>
        have hjj : jj < rest.length := by simpa [Nat.succ_lt_succ_iff] using hj
        have hrec := (ih (i + 1) p).2 jj hjj
        simp only
        rw [hpop]
        have harith : i + (jj + 1) = i + 1 + jj := by omega
        simp only [List.get?, harith]
        simpa using hrec

end ConcertoForm

namespace ConcertoForm

/-- C6 amended: for an array-valued field whose document value at the
field's path has N entries, `visitField` returns a `ConcertoArray`
keyed `<name>_wrapper` whose add callback passes the field's computed
default value and whose children are exactly N element wrappers, the
wrapper for entry `j` keyed `<name>_wrapper[<j>]`; for an array-valued
relationship, `visitRelationship` returns a `ConcertoArray` keyed by
the relationship's path whose add callback passes the sample resource's
reference URI, with exactly N element wrappers, the wrapper for entry
`j` keyed `relationship-<path>[<j>]-<j>`. -/
theorem C6_array_rendering (fuel : Nat) (f : FieldData) (rl : RelationshipData)
    (p q : Params) (xs ys : List Json) (rf rr : Option UIElement) (pf pr : Params)
    (hfh : (hideProperty f.fqn p || isHidden f.decorators) = false)
    (hfa : f.isArray = true)
    (hfv : get p.json (p.stack ++ [PathSeg.name f.name]) = some (.arr xs))
    (hfr : visitField fuel f p = (Except.ok rf, pf))
    (hrh : (hideProperty rl.fqn q || isHidden rl.decorators) = false)
    (hra : rl.isArray = true)
    (hrv : get q.json (q.stack ++ [PathSeg.name rl.name]) = some (.arr ys))
    (hrr : visitRelationship rl q = (Except.ok rr, pr)) :
    (∃ children, rf = some (.concertoArray (f.name ++ "_wrapper")
        (getDefaultValue f (p.push (.name f.name))) children) ∧
      children.length = xs.length ∧
      ∀ j, j < xs.length → ∃ inner, children.get? j =
        some (some (.concertoArrayElement
          (f.name ++ "_wrapper[" ++ toString j ++ "]") j inner))) ∧
    (∃ children, rr = some (.concertoArray
        (pathToString (q.stack ++ [PathSeg.name rl.name]))
        (.str (newResourceURI rl.nspace rl.rtype)) children) ∧
      children.length = ys.length ∧
      ∀ j, j < ys.length → children.get? j =
        some (some (.concertoArrayElement
          ("relationship-" ++ pathToString (q.stack ++ [PathSeg.name rl.name, PathSeg.index j])
            ++ "-" ++ toString j) j
          (some (.concertoRelationship
            (pathToString (q.stack ++ [PathSeg.name rl.name, PathSeg.index j]))
            (get q.json (q.stack ++ [PathSeg.name rl.name, PathSeg.index j]))))))) := by
  constructor
  · rw [visitField] at hfr
    rw [hfh] at hfr
    simp only [Bool.false_eq_true, if_false, hfa, if_true, Params.push] at hfr
    rw [hfv] at hfr
    simp only [jsTruthy, if_true] at hfr
    split at hfr
    · rename_i children p2 heq
      injection hfr with h1 h2
      injection h1 with h1
      have hshape := fieldArrayElements_shape fuel f _ xs 0 _ children p2 heq
      refine ⟨children, ?_, hshape.1, ?_⟩
      · rw [← h1]
        simp [Params.push]
      · intro j hj
        obtain ⟨inner, hinner⟩ := hshape.2 j hj
        exact ⟨inner, by simpa using hinner⟩
    · rename_i e p2 heq
      injection hfr with h1 h2
      cases h1
  · rw [visitRelationship] at hrr
    rw [hrh] at hrr
    simp only [Bool.false_eq_true, if_false, hra, if_true, Params.push] at hrr
    rw [hrv] at hrr
    simp only [jsTruthy, if_true] at hrr
    injection hrr with h1 h2
    injection h1 with h1
    have hshape := relArrayElements_shape rl ys 0 (q.push (.name rl.name))
    refine ⟨(relationshipArrayElements rl ys 0 (q.push (.name rl.name))).1, ?_, ?_, ?_⟩
    · rw [← h1]
      simp [Params.push]
    · exact hshape.1
    · intro j hj
      have h := hshape.2 j hj
      simpa [Params.push] using h
end ConcertoForm

namespace ConcertoForm

def fC6 : FieldData :=
  { name := "xs", fqn := "ns.C.xs", ftype := "String", fqTypeName := "String",
    isArray := true, isOptional := false, isPrimitive := true, decorators := [] }

def pC6 : Params :=
  { json := .obj [("xs", .arr [.str "a"])], stack := [], modelManager := ⟨[]⟩ }

def rlC6 : RelationshipData :=
  { name := "owners", fqn := "ns.House.owners", nspace := "ns", rtype := "Person",
    isArray := true, isOptional := false, decorators := [] }

def qC6 : Params :=
  { json := .obj [("owners", .arr [.str "alice"])], stack := [], modelManager := ⟨[]⟩ }

def rfC6 : Option UIElement :=
  some (.concertoArray "xs_wrapper" (.str "")
    [some (.concertoArrayElement "xs_wrapper[0]" 0
      (some (.concertoInput "xs[0]" "xs[0]" (some (.str "a")) "text" true true)))])

def rrC6 : Option UIElement :=
  some (.concertoArray "owners" (.str "resource:ns.Person#resource1")
    [some (.concertoArrayElement "relationship-owners[0]-0" 0
      (some (.concertoRelationship "owners[0]" (some (.str "alice")))))])

theorem visitField_C6_eval : visitField 2 fC6 pC6 = (Except.ok rfC6, pC6) := by
  simp [visitField, visitFieldArrayElements, visitSingletonField, fC6, pC6, rfC6,
    hideProperty, isHidden, getDecorator, getCustomSelectDecoratorKey, toFieldType,
    getDefaultValue, Params.push, Params.pop, pathToString, get, jsTruthy]
  exact ⟨rfl, rfl⟩

theorem visitRelationship_C6_eval :
    visitRelationship rlC6 qC6 = (Except.ok rrC6, qC6) := rfl

/-- C6 counterexample: for the array field `xs` with one entry, the
element wrapper is keyed `xs_wrapper[0]` while the field's path followed
by the index is the string `xs[0]`; the two differ, refuting the claimed
wrapper key. -/
theorem C6_counterexample :
    (visitField 2 fC6 pC6).1 = Except.ok rfC6 ∧
    rfC6 = some (.concertoArray "xs_wrapper" (.str "")
      [some (.concertoArrayElement "xs_wrapper[0]" 0
        (some (.concertoInput "xs[0]" "xs[0]" (some (.str "a")) "text" true true)))]) ∧
    pathToString [PathSeg.name "xs", PathSeg.index 0] = "xs[0]" ∧
    (("xs_wrapper[0]" == "xs[0]") = false) :=
  ⟨by rw [visitField_C6_eval], rfl, rfl, rfl⟩

theorem C6_witness :
    (∃ children, rfC6 = some (.concertoArray (fC6.name ++ "_wrapper")
        (getDefaultValue fC6 (pC6.push (.name fC6.name))) children) ∧
      children.length = ([Json.str "a"]).length ∧
      ∀ j, j < ([Json.str "a"]).length → ∃ inner, children.get? j =
        some (some (.concertoArrayElement
          (fC6.name ++ "_wrapper[" ++ toString j ++ "]") j inner))) ∧
    (∃ children, rrC6 = some (.concertoArray
        (pathToString (qC6.stack ++ [PathSeg.name rlC6.name]))
        (.str (newResourceURI rlC6.nspace rlC6.rtype)) children) ∧
      children.length = ([Json.str "alice"]).length ∧
      ∀ j, j < ([Json.str "alice"]).length → children.get? j =
        some (some (.concertoArrayElement
          ("relationship-" ++ pathToString (qC6.stack ++ [PathSeg.name rlC6.name, PathSeg.index j])
            ++ "-" ++ toString j) j
          (some (.concertoRelationship
            (pathToString (qC6.stack ++ [PathSeg.name rlC6.name, PathSeg.index j]))
            (get qC6.json (qC6.stack ++ [PathSeg.name rlC6.name, PathSeg.index j]))))))) :=
  C6_array_rendering 2 fC6 rlC6 pC6 qC6 [.str "a"] [.str "alice"] rfC6 rrC6 pC6 qC6
    (by decide) (by decide) (by rfl) visitField_C6_eval
    (by decide) (by decide) (by rfl) visitRelationship_C6_eval

end ConcertoForm

namespace ConcertoForm

/-- The recursion edges of the visitor between declarations: `d1` steps
to `d2` when `d1` is a class with a non-primitive field whose declared
type resolves through the model manager and the concrete-subclass
substitution to the declaration `d2` — exactly the `type.accept`
recursion of `visitSingletonField` (relationships never recurse in
`visitRelationship`, so they contribute no edges). -/
def Refs (M : ModelManager) (d1 d2 : Decl) : Prop :=
  ∃ cd f dcl, d1 = .cls cd ∧ Property.field f ∈ cd.props ∧
    f.isPrimitive = false ∧ M.getType f.fqTypeName = some dcl ∧
    findConcreteSubclass M dcl = Except.ok d2

/-- Acyclicity of the schema: no declaration is reachable from itself
through the type references (concrete-subclass substitution included)
that drive the visitor's recursion. -/
def Acyclic (M : ModelManager) : Prop :=
  ∀ d, ¬ Relation.TransGen (Refs M) d d

/-- The declarations stored in the model manager. -/
def declValues (M : ModelManager) : List Decl :=
  M.decls.map Prod.snd

theorem getType_mem_declValues (M : ModelManager) (c : String) (d : Decl)
    (h : M.getType c = some d) : d ∈ declValues M := by
  unfold ModelManager.getType at h
  rcases hf : M.decls.find? (fun x => x.1 = c) with _ | pr
  · rw [hf] at h; cases h
  · rw [hf] at h
    have hmem := List.mem_of_find?_eq_some hf
    have hd : pr.2 = d := by simpa using h
    exact hd ▸ List.mem_map_of_mem Prod.snd hmem

theorem findConcreteSubclass_ok_mem (M : ModelManager) (dcl sub : Decl)
    (hd : dcl ∈ declValues M)
    (h : findConcreteSubclass M dcl = Except.ok sub) : sub ∈ declValues M := by
  cases dcl with
  | enum e =>
    simp only [findConcreteSubclass] at h
    have hsub : sub = .enum e := by simpa using h.symm
    exact hsub ▸ hd
  | cls cd =>
    simp only [findConcreteSubclass] at h
    split at h
    · split at h
      · cases h
      · rename_i c rest heq
        have hsub : sub = .cls c := by simpa using h.symm
        have hc : c ∈ (getAssignableClassDeclarations M cd.fqn).filter
            (fun x => !x.isAbstract) := by
          rw [heq]
          exact List.mem_cons_self c rest
        have hc2 : c ∈ getAssignableClassDeclarations M cd.fqn :=
          (List.mem_filter.mp hc).1
        unfold getAssignableClassDeclarations at hc2
        rw [List.mem_filterMap] at hc2
        obtain ⟨entry, hentry, hmatch⟩ := hc2
        subst hsub
        rcases hentry2 : entry.2 with e2 | cd2
        · rw [hentry2] at hmatch; cases hmatch
        · rw [hentry2] at hmatch
          simp only [Option.ite_none_right_eq_some, Option.some.injEq] at hmatch
          rw [← hmatch.2, ← hentry2]
          exact List.mem_map_of_mem Prod.snd hentry
    · have hsub : sub = .cls cd := by simpa using h.symm
      exact hsub ▸ hd

theorem refs_target_mem_declValues (M : ModelManager) (d1 d2 : Decl)
    (h : Refs M d1 d2) : d2 ∈ declValues M := by
  obtain ⟨cd, f, dcl, -, -, -, hty, hsub⟩ := h
  exact findConcreteSubclass_ok_mem M dcl d2
    (getType_mem_declValues M _ dcl hty) hsub

theorem acyclic_wf (M : ModelManager) (hA : Acyclic M) :
    WellFounded (fun e d : Decl => Refs M d e) := by
  classical
  let relS : {x // x ∈ declValues M} → {x // x ∈ declValues M} → Prop :=
    fun a b => Refs M b.1 a.1
  have hirr : ∀ a, ¬ Relation.TransGen relS a a := by
    intro a h
    have hlift : Relation.TransGen (Function.swap (Refs M)) a.1 a.1 :=
      Relation.TransGen.lift Subtype.val (fun x y hxy => hxy) h
    rw [Relation.transGen_swap] at hlift
    exact hA a.1 hlift
  haveI : IsTrans {x // x ∈ declValues M} (Relation.TransGen relS) :=
    ⟨fun _ _ _ => Relation.TransGen.trans⟩
  haveI : IsIrrefl {x // x ∈ declValues M} (Relation.TransGen relS) := ⟨hirr⟩
  have wfTG : WellFounded (Relation.TransGen relS) :=
    Finite.wellFounded_of_trans_of_irrefl _
  have wfS : WellFounded relS :=
    Subrelation.wf (fun h => Relation.TransGen.single h) wfTG
  constructor
  intro s
  have key : ∀ a : {x // x ∈ declValues M},
      Acc (fun e d : Decl => Refs M d e) a.1 := by
    intro a
    refine WellFounded.induction wfS
      (C := fun a : {x // x ∈ declValues M} =>
        Acc (fun e d : Decl => Refs M d e) a.1) a ?_
    intro x ih
    constructor
    intro e he
    have hemem : e ∈ declValues M := refs_target_mem_declValues M x.1 e he
    exact ih ⟨e, hemem⟩ he
  constructor
  intro e he
  exact key ⟨e, refs_target_mem_declValues M s e he⟩

end ConcertoForm

namespace ConcertoForm

/-- The embedding's rendering of "the source call terminates here": the
result is anything but the fuel-exhaustion marker. -/
def notNoFuel {α : Type} (r : Except VisitError α) : Prop :=
  r ≠ Except.error .noFuel

/-- Fuel budget sufficient for `visit` on a node, uniformly over all
contexts carrying the given model manager. -/
def VisitOkAt (M : ModelManager) (n : SchemaNode) (N : Nat) : Prop :=
  ∀ fuel p, N ≤ fuel → p.modelManager = M → notNoFuel (visit fuel n p).1

/-- Fuel budget sufficient for `visitSingletonField` on a field. -/
def SingleOkAt (M : ModelManager) (f : FieldData) (N : Nat) : Prop :=
  ∀ fuel cp p, N ≤ fuel → p.modelManager = M →
    notNoFuel (visitSingletonField fuel f cp p).1

theorem VisitOkAt.mono {M n N N2} (h : VisitOkAt M n N) (hle : N ≤ N2) :
    VisitOkAt M n N2 :=
  fun fuel p hf hp => h fuel p (le_trans hle hf) hp

theorem visit_zero_eq (n : SchemaNode) (p : Params) :
    visit 0 n p = (Except.error .noFuel, installWriter p) := by
  simp [visit.eq_def]

theorem visit_succ_enum (k : Nat) (e : EnumDecl) (p : Params) :
    visit (k + 1) (.enumDeclaration e) p = visitEnumDeclaration e (installWriter p) := by
  simp [visit.eq_def]

theorem visit_succ_class (k : Nat) (c : ClassDecl) (p : Params) :
    visit (k + 1) (.classDeclaration c) p =
      visitClassDeclaration k c (installWriter p) := by
  simp [visit.eq_def]

theorem visit_succ_field (k : Nat) (f : FieldData) (p : Params) :
    visit (k + 1) (.field f) p = visitField k f (installWriter p) := by
  simp [visit.eq_def]

theorem visit_succ_rel (k : Nat) (r : RelationshipData) (p : Params) :
    visit (k + 1) (.relationshipDeclaration r) p =
      visitRelationship r (installWriter p) := by
  simp [visit.eq_def]

theorem notNoFuel_enum (e : EnumDecl) (p : Params) :
    notNoFuel (visitEnumDeclaration e p).1 := by
  simp [visitEnumDeclaration, notNoFuel]

theorem notNoFuel_rel (r : RelationshipData) (p : Params) :
    notNoFuel (visitRelationship r p).1 := by
  rw [visitRelationship]
  split
  · simp [notNoFuel]
  · split
    · dsimp only
      split
      · split
        · simp [notNoFuel]
        · simp [notNoFuel]
      · simp [notNoFuel]
    · simp [notNoFuel]

theorem visitOk_enum (M : ModelManager) (e : EnumDecl) :
    VisitOkAt M (.enumDeclaration e) 1 := by
  intro fuel p hf hp
  obtain ⟨k, rfl⟩ : ∃ k, fuel = k + 1 := ⟨fuel - 1, by omega⟩
  rw [visit_succ_enum]
  exact notNoFuel_enum e _

theorem visitOk_rel (M : ModelManager) (r : RelationshipData) :
    VisitOkAt M (.relationshipDeclaration r) 1 := by
  intro fuel p hf hp
  obtain ⟨k, rfl⟩ : ∃ k, fuel = k + 1 := ⟨fuel - 1, by omega⟩
  rw [visit_succ_rel]
  exact notNoFuel_rel r _

theorem singleOk_primitive (M : ModelManager) (f : FieldData)
    (hp : f.isPrimitive = true) : SingleOkAt M f 0 := by
  intro fuel cp p hf hpm
  rw [visitSingletonField]
  simp only [hp, if_true]
  split
  · simp [notNoFuel]
  · split
    · simp [notNoFuel]
    · split
      · split
        · simp [notNoFuel]
        · simp [notNoFuel]
      · simp [notNoFuel]

theorem singleOk_type_missing (M : ModelManager) (f : FieldData)
    (hp : f.isPrimitive = false) (hty : M.getType f.fqTypeName = none) :
    SingleOkAt M f 0 := by
  intro fuel cp p hf hpm
  rw [visitSingletonField]
  simp only [hp, Bool.false_eq_true, if_false]
  rw [hpm, hty]
  simp [notNoFuel]

theorem singleOk_subst_error (M : ModelManager) (f : FieldData) (dcl : Decl)
    (e : VisitError) (hp : f.isPrimitive = false)
    (hty : M.getType f.fqTypeName = some dcl)
    (hsub : findConcreteSubclass M dcl = Except.error e) : SingleOkAt M f 0 := by
  intro fuel cp p hf hpm
  rw [visitSingletonField]
  simp only [hp, Bool.false_eq_true, if_false]
  rw [hpm, hty]
  dsimp only
  rw [hsub]
  obtain ⟨m, rfl⟩ := findConcreteSubclass_error_msg M dcl e hsub
  simp [notNoFuel]

theorem singleOk_complex (M : ModelManager) (f : FieldData) (dcl sub : Decl)
    (N : Nat) (hp : f.isPrimitive = false)
    (hty : M.getType f.fqTypeName = some dcl)
    (hsub : findConcreteSubclass M dcl = Except.ok sub)
    (hN : VisitOkAt M (declToNode sub) N) : SingleOkAt M f N := by
  intro fuel cp p hf hpm
  rw [visitSingletonField]
  simp only [hp, Bool.false_eq_true, if_false]
  rw [hpm, hty]
  dsimp only
  rw [hsub]
  dsimp only
  have hvisit := hN fuel p hf hpm
  split
  · simp [notNoFuel]
  · rename_i e p2 heq
    rw [heq] at hvisit
    simpa [notNoFuel] using hvisit
end ConcertoForm

namespace ConcertoForm

theorem visitSingletonField_mm (fuel : Nat) (f : FieldData) (cp : CommonProps)
    (p : Params) :
    (visitSingletonField fuel f cp p).2.modelManager = p.modelManager :=
  (ctxInv_singleton fuel (visit_ctxInv fuel) f cp p).1.1

theorem arrayElemsOk (M : ModelManager) (f : FieldData) (N : Nat)
    (hS : SingleOkAt M f N) :
    ∀ elems (i : Nat) cp fuel p, N ≤ fuel → p.modelManager = M →
      notNoFuel (visitFieldArrayElements fuel f cp elems i p).1 := by
  intro elems
  induction elems with
  | nil =>
    intro i cp fuel p hf hm
    rw [visitFieldArrayElements]
    simp [notNoFuel]
  | cons x rest ih =>
    intro i cp fuel p hf hm
    rw [visitFieldArrayElements]
    split
    · rename_i r p2 heq
      split
      · simp [notNoFuel]
      · rename_i e p3 heq2
        have hm2 : p2.pop.modelManager = M := by
          have hmm := visitSingletonField_mm fuel f cp (p.push (.index i))
          rw [heq] at hmm
          simp only [Params.pop]
          rw [hmm]
          simpa [Params.push] using hm
        have hrec := ih (i + 1) cp fuel p2.pop hf hm2
        rw [heq2] at hrec
        simpa [notNoFuel] using hrec
    · rename_i e p2 heq
      have hs := hS fuel cp (p.push (.index i)) hf (by simpa [Params.push] using hm)
      rw [heq] at hs
      simpa [notNoFuel] using hs

theorem visitFieldOk (M : ModelManager) (f : FieldData) (N : Nat)
    (hS : SingleOkAt M f N) :
    ∀ fuel p, N ≤ fuel → p.modelManager = M →
      notNoFuel (visitField fuel f p).1 := by
  intro fuel p hf hm
  rw [visitField]
  split
  · simp [notNoFuel]
  · dsimp only
    split
    · split
      · split
        · rename_i xs hv
          split
          · simp [notNoFuel]
          · rename_i e p2 heq
            have hrec := arrayElemsOk M f N hS xs 0
              ⟨p.skipLabel || f.isArray,
                pathToString (p.push (PathSeg.name f.name)).stack,
                get (p.push (PathSeg.name f.name)).json (p.push (PathSeg.name f.name)).stack,
                toFieldType f.ftype, !f.isOptional⟩
              fuel (p.push (.name f.name)) hf (by simpa [Params.push] using hm)
            rw [heq] at hrec
            simpa [notNoFuel] using hrec
        · simp [notNoFuel]
      · simp [notNoFuel]
    · split
      · simp [notNoFuel]
      · rename_i e p2 heq
        have hs := hS fuel
          ⟨p.skipLabel || f.isArray,
            pathToString (p.push (PathSeg.name f.name)).stack,
            get (p.push (PathSeg.name f.name)).json (p.push (PathSeg.name f.name)).stack,
            toFieldType f.ftype, !f.isOptional⟩
          (p.push (.name f.name)) hf (by simpa [Params.push] using hm)
        rw [heq] at hs
        simpa [notNoFuel] using hs

theorem visitOk_field (M : ModelManager) (f : FieldData) (N : Nat)
    (hS : SingleOkAt M f N) : VisitOkAt M (.field f) (N + 1) := by
  intro fuel p hf hm
  obtain ⟨k, rfl⟩ : ∃ k, fuel = k + 1 := ⟨fuel - 1, by omega⟩
  rw [visit_succ_field]
  exact visitFieldOk M f N hS k (installWriter p) (by omega)
    (by rw [installWriter_mm]; exact hm)

theorem acceptPropertiesOk (M : ModelManager) (N : Nat) :
    ∀ props, (∀ pr ∈ props, VisitOkAt M (propToNode pr) N) →
    ∀ fuel p, N ≤ fuel → p.modelManager = M →
      notNoFuel (acceptProperties fuel props p).1 := by
  intro props
  induction props with
  | nil =>
    intro h fuel p _ _
    rw [acceptProperties]
    simp [notNoFuel]
  | cons pr rest ih =>
    intro h fuel p hf hm
    rw [acceptProperties]
    split
    · rename_i e p1 heq
      have hv := h pr (List.mem_cons_self pr rest) fuel p hf hm
      rw [heq] at hv
      simpa [notNoFuel] using hv
    · rename_i r p1 heq
      split
      · simp [notNoFuel]
      · rename_i e p2 heq2
        have hm1 : p1.modelManager = M := by
          have hmm := (visit_ctxInv fuel (propToNode pr) p).1.1
          rw [heq] at hmm
          rw [hmm]
          exact hm
        have hrec := ih (fun q hq => h q (List.mem_cons_of_mem _ hq)) fuel p1 hf hm1
        rw [heq2] at hrec
        simpa [notNoFuel] using hrec

theorem monetaryOk (M : ModelManager) (N : Nat) (cd : ClassDecl)
    (h : ∀ pr ∈ cd.props, VisitOkAt M (propToNode pr) N) :
    ∀ fuel p, N ≤ fuel → p.modelManager = M →
      notNoFuel (visitMonetaryAmount fuel cd p).1 := by
  intro fuel p hf hm
  rw [visitMonetaryAmount]
  split
  · simp [notNoFuel]
  · rename_i pr0 h0
    have hpr0 : pr0 ∈ cd.props := List.get?_mem h0
    split
    · rename_i e p2 heq
      have hv := h pr0 hpr0 fuel { p with skipLabel := true } hf (by simpa using hm)
      rw [heq] at hv
      simpa [notNoFuel] using hv
    · rename_i r0 p2 heq
      have hm2 : p2.modelManager = M := by
        have hmm := (visit_ctxInv fuel (propToNode pr0) { p with skipLabel := true }).1.1
        rw [heq] at hmm
        rw [hmm]
        simpa using hm
      split
      · simp [notNoFuel]
      · rename_i pr1 h1
        have hpr1 : pr1 ∈ cd.props := List.get?_mem h1
        split
        · rename_i e p3 heq2
          have hv := h pr1 hpr1 fuel p2 hf hm2
          rw [heq2] at hv
          simpa [notNoFuel] using hv
        · simp [notNoFuel]

theorem durationOk (M : ModelManager) (N : Nat) (cd : ClassDecl)
    (h : ∀ pr ∈ cd.props, VisitOkAt M (propToNode pr) N) :
    ∀ fuel p, N ≤ fuel → p.modelManager = M →
      notNoFuel (visitDuration fuel cd p).1 := by
  intro fuel p hf hm
  rw [visitDuration]
  split
  · simp [notNoFuel]
  · rename_i pr0 h0
    have hpr0 : pr0 ∈ cd.props := List.get?_mem h0
    split
    · rename_i e p2 heq
      have hv := h pr0 hpr0 fuel { p with skipLabel := true } hf (by simpa using hm)
      rw [heq] at hv
      simpa [notNoFuel] using hv
    · rename_i r0 p2 heq
      have hm2 : p2.modelManager = M := by
        have hmm := (visit_ctxInv fuel (propToNode pr0) { p with skipLabel := true }).1.1
        rw [heq] at hmm
        rw [hmm]
        simpa using hm
      split
      · simp [notNoFuel]
      · rename_i pr1 h1
        have hpr1 : pr1 ∈ cd.props := List.get?_mem h1
        split
        · rename_i e p3 heq2
          have hv := h pr1 hpr1 fuel p2 hf hm2
          rw [heq2] at hv
          simpa [notNoFuel] using hv
        · simp [notNoFuel]

theorem partyOk (M : ModelManager) (N : Nat) (cd : ClassDecl)
    (h : ∀ pr ∈ cd.props, VisitOkAt M (propToNode pr) N) :
    ∀ fuel p, N ≤ fuel → p.modelManager = M →
      notNoFuel (visitAccordParty fuel cd p).1 := by
  intro fuel p hf hm
  rw [visitAccordParty]
  split
  · simp [notNoFuel]
  · rename_i pr0 h0
    have hpr0 : pr0 ∈ cd.props := List.get?_mem h0
    split
    · rename_i e p2 heq
      have hv := h pr0 hpr0 fuel { p with skipLabel := true } hf (by simpa using hm)
      rw [heq] at hv
      simpa [notNoFuel] using hv
    · simp [notNoFuel]

theorem recordHiddenId_error_msg (cd : ClassDecl) (p : Params) (e : VisitError)
    (q : Params) (h : recordHiddenId cd p = (some e, q)) :
    ∃ m, e = .jsError m := by
  unfold recordHiddenId at h
  revert h
  repeat' split
  all_goals intro h
  all_goals try cases h
  all_goals exact ⟨_, rfl⟩

theorem classOk (M : ModelManager) (N : Nat) (cd : ClassDecl)
    (h : ∀ pr ∈ cd.props, VisitOkAt M (propToNode pr) N) :
    ∀ fuel p, N ≤ fuel → p.modelManager = M →
      notNoFuel (visitClassDeclaration fuel cd p).1 := by
  intro fuel p hf hm
  rw [visitClassDeclaration]
  split
  · rename_i e p1 heq
    obtain ⟨m, rfl⟩ := recordHiddenId_error_msg cd p e p1 heq
    simp [notNoFuel]
  · rename_i p1 heq
    have hm1 : p1.modelManager = M := by
      have hmm := (recordHiddenId_params cd p).1
      rw [heq] at hmm
      rw [hmm]
      exact hm
    split
    · simp [notNoFuel]
    · split
      · exact monetaryOk M N cd h fuel p1 hf hm1
      · split
        · exact durationOk M N cd h fuel p1 hf hm1
        · split
          · exact partyOk M N cd h fuel p1 hf hm1
          · split
            · simp [notNoFuel]
            · rename_i e p2 heq2
              have hv := acceptPropertiesOk M N cd.props h fuel p1 hf hm1
              rw [heq2] at hv
              simpa [notNoFuel] using hv

theorem visitOk_class (M : ModelManager) (N : Nat) (cd : ClassDecl)
    (h : ∀ pr ∈ cd.props, VisitOkAt M (propToNode pr) N) :
    VisitOkAt M (.classDeclaration cd) (N + 1) := by
  intro fuel p hf hm
  obtain ⟨k, rfl⟩ : ∃ k, fuel = k + 1 := ⟨fuel - 1, by omega⟩
  rw [visit_succ_class]
  exact classOk M N cd h k (installWriter p) (by omega)
    (by rw [installWriter_mm]; exact hm)

theorem exists_uniform_bound (M : ModelManager) :
    ∀ props : List Property,
      (∀ pr ∈ props, ∃ N, VisitOkAt M (propToNode pr) N) →
      ∃ N, ∀ pr ∈ props, VisitOkAt M (propToNode pr) N := by
  intro props
  induction props with
  | nil => exact fun _ => ⟨0, by simp⟩
  | cons pr rest ih =>
    intro h
    obtain ⟨N1, h1⟩ := h pr (List.mem_cons_self pr rest)
    obtain ⟨N2, h2⟩ := ih (fun q hq => h q (List.mem_cons_of_mem _ hq))
    refine ⟨max N1 N2, ?_⟩
    intro q hq
    rcases List.mem_cons.mp hq with rfl | hq2
    · exact h1.mono (le_max_left _ _)
    · exact (h2 q hq2).mono (le_max_right _ _)

theorem declOkAt (M : ModelManager) (hA : Acyclic M) :
    ∀ d : Decl, ∃ N, VisitOkAt M (declToNode d) N := by
  have wf := acyclic_wf M hA
  intro d
  refine WellFounded.induction wf
    (C := fun d => ∃ N, VisitOkAt M (declToNode d) N) d ?_
  intro x ih
  cases x with
  | enum e => exact ⟨1, visitOk_enum M e⟩
  | cls cd =>
    have hprops : ∀ pr ∈ cd.props, ∃ N, VisitOkAt M (propToNode pr) N := by
      intro pr hpr
      cases pr with
      | rel r => exact ⟨1, visitOk_rel M r⟩
      | field f =>
        rcases hprim : f.isPrimitive with _ | _
        · rcases hty : M.getType f.fqTypeName with _ | dcl
          · exact ⟨0 + 1, visitOk_field M f 0 (singleOk_type_missing M f hprim hty)⟩
          · rcases hsub : findConcreteSubclass M dcl with e | sub
            · exact ⟨0 + 1, visitOk_field M f 0
                (singleOk_subst_error M f dcl e hprim hty hsub)⟩
            · have href : Refs M (.cls cd) sub :=
                ⟨cd, f, dcl, rfl, hpr, hprim, hty, hsub⟩
              obtain ⟨N, hN⟩ := ih sub href
              exact ⟨N + 1, visitOk_field M f N
                (singleOk_complex M f dcl sub N hprim hty hsub hN)⟩
        · exact ⟨0 + 1, visitOk_field M f 0 (singleOk_primitive M f hprim)⟩
    obtain ⟨N0, hN0⟩ := exists_uniform_bound M cd.props hprops
    exact ⟨N0 + 1, visitOk_class M N0 cd hN0⟩

/-- C9: for an acyclic schema — no declaration reachable from itself
through the type references that drive the visitor's recursion, the
concrete-subclass substitution included — `visit` on any declared root
terminates: some finite fuel budget suffices uniformly for every context
carrying the schema's model manager, and with at least that much fuel
the embedded run never reports fuel exhaustion, i.e. the depth-first
walk of the source completes after finitely many visits. -/
theorem C9_acyclic_terminates (M : ModelManager) (hA : Acyclic M)
    (root : String) (d : Decl) (_hroot : M.getType root = some d) :
    ∃ N, ∀ fuel p, N ≤ fuel → p.modelManager = M →
      (visit fuel (declToNode d) p).1 ≠ Except.error .noFuel := by
  obtain ⟨N, hN⟩ := declOkAt M hA d
  exact ⟨N, fun fuel p hf hm => hN fuel p hf hm⟩

end ConcertoForm

namespace ConcertoForm

def fldC9 : FieldData :=
  { name := "s", fqn := "ns.A.s", ftype := "String", fqTypeName := "String",
    isArray := false, isOptional := false, isPrimitive := true, decorators := [] }

def cdC9 : ClassDecl :=
  { fqn := "ns.A", name := "A", isAbstract := false, idFieldName := none,
    props := [.field fldC9] }

def mmC9 : ModelManager := ⟨[("ns.A", .cls cdC9)]⟩

theorem mmC9_acyclic : Acyclic mmC9 := by
  intro d hd
  have hmem : d ∈ declValues mmC9 := by
    cases hd with
    | single h => exact refs_target_mem_declValues _ _ _ h
    | tail _ h => exact refs_target_mem_declValues _ _ _ h
  have hd2 : d = .cls cdC9 := by simpa [declValues, mmC9] using hmem
  subst hd2
  rcases (Relation.TransGen.head'_iff).mp hd with ⟨b, hstep, -⟩
  obtain ⟨cd, f, dcl, hcd, hpr, hprim, -, -⟩ := hstep
  have hcd2 : cdC9 = cd := by injection hcd
  rw [← hcd2] at hpr
  have hf : f = fldC9 := by simpa [cdC9] using hpr
  rw [hf] at hprim
  simp [fldC9] at hprim

theorem C9_witness :
    ∃ N, ∀ fuel p, N ≤ fuel → p.modelManager = mmC9 →
      (visit fuel (declToNode (Decl.cls cdC9)) p).1 ≠ Except.error .noFuel :=
  C9_acyclic_terminates mmC9 mmC9_acyclic "ns.A" (Decl.cls cdC9) rfl

end ConcertoForm
